import Mathlib

/-!
Verification of the wasm action runtime in
src/openwhisk-wasm-runtime/src/wasmtime.rs.

The development is organised as follows.

Part 1 embeds the JSON values exchanged between host and guest
(serde_json::Value) together with the serde_json compact serializer
(serde_json::to_vec) and parser (serde_json::from_slice).  Guest memory
bytes are modelled at the level of unicode characters; UTF-8 encoding of
characters to bytes is injective, so character-level round trips are
faithful to byte-level round trips.  JSON numbers are modelled as
integers; floating point numbers are outside the embedding.

Part 2 proves the print/parse round trip used by the outcome codec
claims.

Part 3 embeds the four functions of wasmtime.rs (execute_wasm,
build_wasi_context, pass_string_arg, get_return_value) over an abstract
wasmtime engine oracle and an abstract guest instance, with an explicit
event trace.  Results distinguish an error returned to the caller
(Rust Result::Err, produced by the question mark operator) from a Rust
process abort (unwrap/panic), because several claims hinge on that
difference.

Part 4 states and proves the claim theorems.
-/

/-! ### Part 1: JSON values and the serde_json wire format -/

mutual

/-- Embedding of serde_json::Value.  Arrays and objects use a mutual
inductive family instead of nested List so that structural recursion
over values is available.  Numbers are modelled as integers (the
floating point part of serde_json::Number is outside the embedding);
object fields are an association list in writing order (serde_json
normalises them into a key-ordered map, which is a sublanguage of the
association lists modelled here). -/
inductive Json where
  | null : Json
  | bool (b : Bool) : Json
  | num (n : Int) : Json
  | str (s : List Char) : Json
  | arr (elems : JsonList) : Json
  | obj (fields : JsonFields) : Json

/-- List of JSON array elements. -/
inductive JsonList where
  | nil : JsonList
  | cons (hd : Json) (tl : JsonList) : JsonList

/-- List of JSON object members (key/value pairs). -/
inductive JsonFields where
  | nil : JsonFields
  | cons (key : List Char) (val : Json) (tl : JsonFields) : JsonFields

end

/-- Opening curly brace character. -/
def lcurly : Char := Char.ofNat 123

/-- Closing curly brace character. -/
def rcurly : Char := Char.ofNat 125

/-- Decimal digit character for a value below ten. -/
def digitChar (n : Nat) : Char := Char.ofNat (48 + n)

/-- Lowercase hexadecimal digit character, as emitted by serde_json
for control-character escapes. -/
def hexDigitChar (n : Nat) : Char :=
  if n < 10 then Char.ofNat (48 + n) else Char.ofNat (87 + n)

/-- Little-endian decimal digits of a natural number, with explicit
fuel so that the definition is structurally recursive (and hence
reduces inside the kernel).  With fuel at least n this agrees with
Nat.digits 10 n. -/
def natDigitsRev : Nat → Nat → List Nat
  | 0, _ => []
  | fuel + 1, n => if n = 0 then [] else n % 10 :: natDigitsRev fuel (n / 10)

/-- Decimal notation of a natural number, most significant digit
first, as emitted by serde_json (itoa). -/
def printNat (n : Nat) : List Char :=
  if n = 0 then ['0'] else ((natDigitsRev n n).reverse.map digitChar)

/-- Decimal notation of an integer, as emitted by serde_json (itoa). -/
def printInt (n : Int) : List Char :=
  if n < 0 then '-' :: printNat n.natAbs else printNat n.toNat

/-- Escape sequence serde_json emits for one character inside a JSON
string: quote and backslash get two-character escapes, the five named
control characters get their short forms, the remaining control
characters get a \u00XX escape, and every other character is passed
through unescaped. -/
def escapeChar (c : Char) : List Char :=
  if c = '"' then ['\\', '"']
  else if c = '\\' then ['\\', '\\']
  else if c = Char.ofNat 8 then ['\\', 'b']
  else if c = Char.ofNat 9 then ['\\', 't']
  else if c = Char.ofNat 10 then ['\\', 'n']
  else if c = Char.ofNat 12 then ['\\', 'f']
  else if c = Char.ofNat 13 then ['\\', 'r']
  else if c.toNat < 32 then
    ['\\', 'u', '0', '0', hexDigitChar (c.toNat / 16), hexDigitChar (c.toNat % 16)]
  else [c]

/-- Escaped body of a JSON string. -/
def escapeList (s : List Char) : List Char := (s.map escapeChar).flatten

mutual

/-- Compact serde_json serialization of a JSON value
(serde_json::to_vec): no whitespace, arrays and objects
comma-separated. -/
def printJson : Json → List Char
  | Json.null => ['n', 'u', 'l', 'l']
  | Json.bool true => ['t', 'r', 'u', 'e']
  | Json.bool false => ['f', 'a', 'l', 's', 'e']
  | Json.num n => printInt n
  | Json.str s => '"' :: escapeList s ++ ['"']
  | Json.arr JsonList.nil => ['[', ']']
  | Json.arr (JsonList.cons x xs) => '[' :: (printJson x ++ printTailElems xs ++ [']'])
  | Json.obj JsonFields.nil => [lcurly, rcurly]
  | Json.obj (JsonFields.cons k v kvs) =>
      lcurly :: ('"' :: escapeList k ++ '"' :: ':' :: printJson v ++ printTailMembers kvs ++ [rcurly])

/-- Serialization of the second and later array elements, each with
its leading comma. -/
def printTailElems : JsonList → List Char
  | JsonList.nil => []
  | JsonList.cons x xs => ',' :: printJson x ++ printTailElems xs

/-- Serialization of the second and later object members, each with
its leading comma. -/
def printTailMembers : JsonFields → List Char
  | JsonFields.nil => []
  | JsonFields.cons k v kvs =>
      ',' :: '"' :: escapeList k ++ '"' :: ':' :: printJson v ++ printTailMembers kvs

end

/-- JSON whitespace accepted between tokens. -/
def isWsChar (c : Char) : Bool :=
  c = ' ' || c = Char.ofNat 9 || c = Char.ofNat 10 || c = Char.ofNat 13

/-- Skip JSON whitespace. -/
def skipWs : List Char → List Char
  | [] => []
  | c :: cs => if isWsChar c then skipWs cs else c :: cs

/-- Decimal digit test. -/
def isDigitChar (c : Char) : Bool := 48 ≤ c.toNat && c.toNat ≤ 57

/-- Value of a decimal digit character. -/
def digitVal (c : Char) : Nat := c.toNat - 48

/-- Split off the longest leading run of decimal digits. -/
def takeDigits : List Char → (List Char × List Char)
  | [] => ([], [])
  | c :: cs =>
    if isDigitChar c then
      ((takeDigits cs).1.cons c, (takeDigits cs).2)
    else ([], c :: cs)

/-- Numeric value of a digit run, most significant digit first. -/
def parseNat (ds : List Char) : Nat :=
  ds.foldl (fun acc c => 10 * acc + digitVal c) 0

/-- Leading-zero test of a digit run: JSON forbids a zero digit
followed by further digits. -/
def leadZero : List Char → Bool
  | c :: _ :: _ => c = '0'
  | _ => false

/-- Test that a number token is not continued by the following
characters.  A following digit would extend the integer part; a
following dot or exponent letter would extend the token into a
floating point number, which is outside this embedding. -/
def numTerminated : List Char → Bool
  | [] => true
  | c :: _ => !(isDigitChar c || c = '.' || c = 'e' || c = 'E')

/-- Parse a JSON integer (optional minus sign and digit run with no
leading zero). -/
def parseNumber (cs : List Char) : Option (Json × List Char) :=
  match cs with
  | '-' :: cs1 =>
    match takeDigits cs1 with
    | ([], _) => none
    | (d :: ds, rest) =>
      if leadZero (d :: ds) || !(numTerminated rest) then none
      else some (Json.num (-(Int.ofNat (parseNat (d :: ds)))), rest)
  | _ =>
    match takeDigits cs with
    | ([], _) => none
    | (d :: ds, rest) =>
      if leadZero (d :: ds) || !(numTerminated rest) then none
      else some (Json.num (Int.ofNat (parseNat (d :: ds))), rest)

/-- Value of one hexadecimal digit character (either case). -/
def parseHexDigit (c : Char) : Option Nat :=
  if 48 ≤ c.toNat && c.toNat ≤ 57 then some (c.toNat - 48)
  else if 97 ≤ c.toNat && c.toNat ≤ 102 then some (c.toNat - 87)
  else if 65 ≤ c.toNat && c.toNat ≤ 70 then some (c.toNat - 55)
  else none

/-- Code unit of a four-digit \u escape. -/
def parseUnicodeEscape (h1 h2 h3 h4 : Char) : Option Nat :=
  match parseHexDigit h1, parseHexDigit h2, parseHexDigit h3, parseHexDigit h4 with
  | some a, some b, some c, some d => some (4096 * a + 256 * b + 16 * c + d)
  | _, _, _, _ => none

/-- Character of a unicode scalar value; fails on surrogate code
points and out-of-range values, as serde_json does. -/
def charFromCode (n : Nat) : Option Char :=
  if n.isValidChar then some (Char.ofNat n) else none

/-- Prepend a decoded character to the result of parsing the rest of a
string body. -/
def consStr (c : Char) (r : Option (List Char × List Char)) : Option (List Char × List Char) :=
  match r with
  | none => none
  | some (s, rest) => some (c :: s, rest)

mutual

/-- Parse the body of a JSON string after the opening quote, up to and
including the closing quote, decoding escapes (including surrogate
pairs) and rejecting raw control characters, as serde_json does. -/
def parseStringBody : List Char → Option (List Char × List Char)
  | [] => none
  | c :: cs =>
    if c = '"' then some ([], cs)
    else if c = '\\' then parseEscapeSeq cs
    else if c.toNat < 32 then none
    else consStr c (parseStringBody cs)

/-- Parse what follows a backslash inside a JSON string. -/
def parseEscapeSeq : List Char → Option (List Char × List Char)
  | [] => none
  | e :: cs1 =>
    if e = '"' then consStr '"' (parseStringBody cs1)
    else if e = '\\' then consStr '\\' (parseStringBody cs1)
    else if e = '/' then consStr '/' (parseStringBody cs1)
    else if e = 'b' then consStr (Char.ofNat 8) (parseStringBody cs1)
    else if e = 'f' then consStr (Char.ofNat 12) (parseStringBody cs1)
    else if e = 'n' then consStr (Char.ofNat 10) (parseStringBody cs1)
    else if e = 'r' then consStr (Char.ofNat 13) (parseStringBody cs1)
    else if e = 't' then consStr (Char.ofNat 9) (parseStringBody cs1)
    else if e = 'u' then parseUniSeq cs1
    else none

/-- Parse the four hex digits of a \u escape and dispatch on whether
they form a high surrogate. -/
def parseUniSeq : List Char → Option (List Char × List Char)
  | h1 :: h2 :: h3 :: h4 :: cs2 =>
    (match parseUnicodeEscape h1 h2 h3 h4 with
     | none => none
     | some n =>
       if 55296 ≤ n && n ≤ 56319 then parseSurrogatePair n cs2
       else
         match charFromCode n with
         | none => none
         | some ch => consStr ch (parseStringBody cs2))
  | _ => none

/-- Parse the low-surrogate \u escape that must follow a high
surrogate, and combine the pair into one character. -/
def parseSurrogatePair (n : Nat) : List Char → Option (List Char × List Char)
  | '\\' :: 'u' :: g1 :: g2 :: g3 :: g4 :: cs3 =>
    (match parseUnicodeEscape g1 g2 g3 g4 with
     | none => none
     | some m =>
       if 56320 ≤ m && m ≤ 57343 then
         match charFromCode (65536 + 1024 * (n - 55296) + (m - 56320)) with
         | none => none
         | some ch => consStr ch (parseStringBody cs3)
       else none)
  | _ => none

end

mutual

/-- Parse one JSON value.  The fuel argument makes the mutual
recursion structural; any fuel at least the structural size of the
value suffices (see parseValue_print). -/
def parseValue : Nat → List Char → Option (Json × List Char)
  | 0, _ => none
  | fuel + 1, cs =>
    match cs with
    | [] => none
    | c :: cs1 =>
      if c = 'n' then
        match cs1 with
        | 'u' :: 'l' :: 'l' :: rest => some (Json.null, rest)
        | _ => none
      else if c = 't' then
        match cs1 with
        | 'r' :: 'u' :: 'e' :: rest => some (Json.bool true, rest)
        | _ => none
      else if c = 'f' then
        match cs1 with
        | 'a' :: 'l' :: 's' :: 'e' :: rest => some (Json.bool false, rest)
        | _ => none
      else if c = '"' then
        match parseStringBody cs1 with
        | none => none
        | some (s, rest) => some (Json.str s, rest)
      else if c = '[' then
        match skipWs cs1 with
        | ']' :: rest => some (Json.arr JsonList.nil, rest)
        | cs2 =>
          match parseValue fuel cs2 with
          | none => none
          | some (v, rest) =>
            match parseElemsTail fuel (skipWs rest) with
            | none => none
            | some (vs, rest2) => some (Json.arr (JsonList.cons v vs), rest2)
      else if c = lcurly then
        match skipWs cs1 with
        | [] => none
        | d :: rest0 =>
          if d = rcurly then some (Json.obj JsonFields.nil, rest0)
          else
            match parseMember fuel (d :: rest0) with
            | none => none
            | some (k, v, rest) =>
              match parseMembersTail fuel (skipWs rest) with
              | none => none
              | some (kvs, rest2) => some (Json.obj (JsonFields.cons k v kvs), rest2)
      else parseNumber (c :: cs1)

/-- Parse the second and later elements of an array, each after a
comma, through the closing bracket. -/
def parseElemsTail : Nat → List Char → Option (JsonList × List Char)
  | 0, _ => none
  | fuel + 1, cs =>
    match cs with
    | ',' :: cs1 =>
      match parseValue fuel (skipWs cs1) with
      | none => none
      | some (v, rest) =>
        match parseElemsTail fuel (skipWs rest) with
        | none => none
        | some (vs, rest2) => some (JsonList.cons v vs, rest2)
    | ']' :: cs1 => some (JsonList.nil, cs1)
    | _ => none

/-- Parse one object member: quoted key, colon, value. -/
def parseMember : Nat → List Char → Option (List Char × Json × List Char)
  | 0, _ => none
  | fuel + 1, cs =>
    match cs with
    | '"' :: cs1 =>
      match parseStringBody cs1 with
      | none => none
      | some (k, rest) =>
        match skipWs rest with
        | ':' :: rest2 =>
          match parseValue fuel (skipWs rest2) with
          | none => none
          | some (v, rest3) => some (k, v, rest3)
        | _ => none
    | _ => none

/-- Parse the second and later members of an object, each after a
comma, through the closing brace. -/
def parseMembersTail : Nat → List Char → Option (JsonFields × List Char)
  | 0, _ => none
  | fuel + 1, cs =>
    match cs with
    | ',' :: cs1 =>
      match parseMember fuel (skipWs cs1) with
      | none => none
      | some (k, v, rest) =>
        match parseMembersTail fuel (skipWs rest) with
        | none => none
        | some (kvs, rest2) => some (JsonFields.cons k v kvs, rest2)
    | c :: cs1 => if c = rcurly then some (JsonFields.nil, cs1) else none
    | [] => none

end

/-- Parse a complete JSON document the way serde_json::from_slice
does: optional surrounding whitespace, exactly one value, nothing
else.  The fuel bound of twice the input length is always enough (see
sizeJ_le_two_mul_length_print). -/
def jsonParse (cs : List Char) : Option Json :=
  match parseValue (2 * cs.length + 2) (skipWs cs) with
  | none => none
  | some (v, rest) => if (skipWs rest).isEmpty then some v else none

/-! ### Part 2: print/parse round trip -/

theorem toNat_ofNat_valid (n : Nat) (h : n.isValidChar) : (Char.ofNat n).toNat = n := by
  unfold Char.ofNat
  rw [dif_pos h]
  rfl

theorem ofNat_toNat (c : Char) : Char.ofNat c.toNat = c := by
  have h : c.toNat.isValidChar := c.valid
  apply Char.eq_of_val_eq
  apply UInt32.eq_of_toBitVec_eq
  unfold Char.ofNat
  rw [dif_pos h]
  rfl

theorem isValidChar_of_lt (n : Nat) (h : n < 55296) : n.isValidChar := Or.inl h

theorem digitChar_toNat (d : Nat) (h : d < 10) : (digitChar d).toNat = 48 + d :=
  toNat_ofNat_valid _ (isValidChar_of_lt _ (by omega))

theorem isDigitChar_digitChar (d : Nat) (h : d < 10) : isDigitChar (digitChar d) = true := by
  simp [isDigitChar, digitChar_toNat d h]
  omega

theorem digitVal_digitChar (d : Nat) (h : d < 10) : digitVal (digitChar d) = d := by
  simp [digitVal, digitChar_toNat d h]

theorem skipWs_not_ws {c : Char} (cs : List Char) (h : isWsChar c = false) :
    skipWs (c :: cs) = c :: cs := by
  simp [skipWs, h]

theorem isWsChar_of_digit {c : Char} (h : isDigitChar c = true) : isWsChar c = false := by
  simp only [isDigitChar, Bool.and_eq_true, decide_eq_true_eq] at h
  simp only [isWsChar, Bool.or_eq_false_iff, decide_eq_false_iff_not]
  refine ⟨⟨⟨?_, ?_⟩, ?_⟩, ?_⟩ <;>
    (intro hc; subst hc; revert h; decide)

theorem natDigitsRev_zero (fuel : Nat) : natDigitsRev fuel 0 = [] := by
  cases fuel <;> simp [natDigitsRev]

theorem natDigitsRev_lt (fuel : Nat) : ∀ n d, d ∈ natDigitsRev fuel n → d < 10 := by
  induction fuel with
  | zero => intro n d hd; simp [natDigitsRev] at hd
  | succ fuel ih =>
    intro n d hd
    by_cases hn : n = 0
    · simp [natDigitsRev, hn] at hd
    · simp only [natDigitsRev, if_neg hn, List.mem_cons] at hd
      rcases hd with h | h
      · omega
      · exact ih _ _ h

theorem natDigitsRev_eq_digits (fuel : Nat) : ∀ n, n ≤ fuel → natDigitsRev fuel n = Nat.digits 10 n := by
  induction fuel with
  | zero =>
    intro n hn
    have : n = 0 := by omega
    subst this
    simp [natDigitsRev]
  | succ fuel ih =>
    intro n hn
    by_cases hz : n = 0
    · subst hz; simp [natDigitsRev]
    · rw [natDigitsRev, if_neg hz, Nat.digits_def' (by norm_num : (1:Nat) < 10) (Nat.pos_of_ne_zero hz)]
      rw [ih (n / 10) (by omega)]

theorem parseNat_revmap (ds : List Nat) : ∀ acc : Nat, (∀ d ∈ ds, d < 10) →
    List.foldl (fun acc c => 10 * acc + digitVal c) acc ((ds.reverse).map digitChar) =
      acc * 10 ^ ds.length + Nat.ofDigits 10 ds := by
  induction ds with
  | nil => intro acc _; simp [Nat.ofDigits]
  | cons d ds ih =>
    intro acc hd
    have hd10 : d < 10 := hd d (List.mem_cons_self d ds)
    simp only [List.reverse_cons, List.map_append, List.foldl_append, List.map_cons,
      List.map_nil, List.foldl_cons, List.foldl_nil]
    rw [ih acc (fun x hx => hd x (List.mem_cons_of_mem d hx))]
    rw [digitVal_digitChar d hd10, Nat.ofDigits_cons]
    simp only [List.length_cons, pow_succ]
    ring

theorem parseNat_printNat (n : Nat) : parseNat (printNat n) = n := by
  by_cases hz : n = 0
  · subst hz; rfl
  · unfold printNat parseNat
    rw [if_neg hz, natDigitsRev_eq_digits n n (le_refl n)]
    rw [parseNat_revmap _ 0 (fun d hd => Nat.digits_lt_base (by norm_num) hd)]
    simp [Nat.ofDigits_digits]

theorem printNat_ne_nil (n : Nat) : printNat n ≠ [] := by
  by_cases hz : n = 0
  · subst hz; simp [printNat]
  · unfold printNat
    rw [if_neg hz]
    simp only [ne_eq, List.map_eq_nil_iff, List.reverse_eq_nil_iff]
    cases n with
    | zero => exact absurd rfl hz
    | succ m => simp [natDigitsRev]

theorem printNat_digits (n : Nat) : ∀ c ∈ printNat n, isDigitChar c = true := by
  intro c hc
  by_cases hz : n = 0
  · subst hz
    simp [printNat] at hc
    subst hc; decide
  · unfold printNat at hc
    rw [if_neg hz] at hc
    simp only [List.mem_map, List.mem_reverse] at hc
    obtain ⟨d, hd, rfl⟩ := hc
    exact isDigitChar_digitChar d (natDigitsRev_lt n n d hd)

theorem ne_of_toNat_ne {c d : Char} (h : c.toNat ≠ d.toNat) : c ≠ d :=
  fun he => h (he ▸ rfl)

theorem isDigitChar_bounds {c : Char} (h : isDigitChar c = true) :
    48 ≤ c.toNat ∧ c.toNat ≤ 57 := by
  simpa [isDigitChar] using h

theorem natDigitsRev_getLastD (fuel : Nat) : ∀ n d, n ≠ 0 → n ≤ fuel →
    (natDigitsRev fuel n).getLastD d ≠ 0 := by
  induction fuel with
  | zero => intro n d hn hle; omega
  | succ fuel ih =>
    intro n d hn hle
    rw [natDigitsRev, if_neg hn, List.getLastD_cons]
    by_cases hq : n / 10 = 0
    · rw [hq, natDigitsRev_zero]
      simp only [List.getLastD_nil]
      omega
    · exact ih (n / 10) (n % 10) hq (by omega)

theorem leadZero_printNat (n : Nat) : leadZero (printNat n) = false := by
  by_cases hz : n = 0
  · subst hz; rfl
  · unfold printNat
    rw [if_neg hz]
    rcases hr : (natDigitsRev n n).reverse with _ | ⟨c, rest⟩
    · rfl
    · rcases rest with _ | ⟨c2, rest2⟩
      · rfl
      · simp only [List.map_cons, leadZero]
        have hcl : natDigitsRev n n = (rest2.reverse ++ [c2]) ++ [c] := by
          rw [← List.reverse_reverse (natDigitsRev n n), hr]
          simp
        have hlast : c ≠ 0 := by
          have := natDigitsRev_getLastD n n 1 hz (le_refl n)
          rw [hcl, List.getLastD_concat] at this
          exact this
        have hc10 : c < 10 := by
          apply natDigitsRev_lt n n
          rw [hcl]
          simp
        have : digitChar c ≠ '0' := by
          apply ne_of_toNat_ne
          rw [digitChar_toNat c hc10]
          have : ('0' : Char).toNat = 48 := rfl
          omega
        simp [this]

theorem numTerminated_head_not_digit {c : Char} {cs : List Char}
    (h : numTerminated (c :: cs) = true) : isDigitChar c = false := by
  simp only [numTerminated, Bool.not_eq_eq_eq_not, Bool.not_true, Bool.or_eq_false_iff] at h
  exact h.1.1.1

theorem takeDigits_append (ds : List Char) : ∀ rest, (∀ c ∈ ds, isDigitChar c = true) →
    numTerminated rest = true → takeDigits (ds ++ rest) = (ds, rest) := by
  induction ds with
  | nil =>
    intro rest _ hr
    rcases rest with _ | ⟨c, cs⟩
    · rfl
    · simp [takeDigits, numTerminated_head_not_digit hr]
  | cons d ds ih =>
    intro rest hd hr
    have hdd : isDigitChar d = true := hd d (List.mem_cons_self d ds)
    simp only [List.cons_append, takeDigits, hdd, if_pos, List.append_eq]
    rw [ih rest (fun c hc => hd c (List.mem_cons_of_mem d hc)) hr]

theorem parseNumber_print (n : Int) (rest : List Char) (hr : numTerminated rest = true) :
    parseNumber (printInt n ++ rest) = some (Json.num n, rest) := by
  by_cases hneg : n < 0
  · simp only [printInt, if_pos hneg, List.cons_append]
    have ht := takeDigits_append (printNat n.natAbs) rest (printNat_digits _) hr
    rcases hd : printNat n.natAbs with _ | ⟨d, ds⟩
    · exact absurd hd (printNat_ne_nil _)
    · rw [hd] at ht
      have hlz : leadZero (d :: ds) = false := by rw [← hd]; exact leadZero_printNat _
      simp only [parseNumber, ht, hlz, hr, Bool.not_true, Bool.or_self, Bool.false_eq_true,
        if_false, Option.some.injEq, Prod.mk.injEq, Json.num.injEq]
      refine ⟨?_, trivial⟩
      rw [← hd, parseNat_printNat, Int.ofNat_eq_coe]
      omega
  · simp only [printInt, if_neg hneg]
    have ht := takeDigits_append (printNat n.toNat) rest (printNat_digits _) hr
    rcases hd : printNat n.toNat with _ | ⟨d, ds⟩
    · exact absurd hd (printNat_ne_nil _)
    · rw [hd] at ht
      have hdd : isDigitChar d = true := by
        apply printNat_digits n.toNat
        rw [hd]
        exact List.mem_cons_self d ds
      have hdash : d ≠ '-' := by
        apply ne_of_toNat_ne
        have := isDigitChar_bounds hdd
        have h45 : ('-' : Char).toNat = 45 := rfl
        omega
      rw [List.cons_append]
      unfold parseNumber
      split
      · next cs1 heq =>
        injection heq with h1 h2
        exact absurd h1 hdash
      · next =>
        have hlz : leadZero (d :: ds) = false := by rw [← hd]; exact leadZero_printNat _
        rw [← List.cons_append, ht]
        simp only [hlz, hr, Bool.not_true, Bool.or_self, Bool.false_eq_true, if_false,
          Option.some.injEq, Prod.mk.injEq, Json.num.injEq]
        refine ⟨?_, trivial⟩
        rw [← hd, parseNat_printNat, Int.ofNat_eq_coe]
        omega

theorem parseHexDigit_hexDigitChar (d : Nat) (h : d < 16) :
    parseHexDigit (hexDigitChar d) = some d := by
  by_cases h10 : d < 10
  · have ht : (hexDigitChar d).toNat = 48 + d := by
      unfold hexDigitChar
      rw [if_pos h10]
      exact toNat_ofNat_valid _ (isValidChar_of_lt _ (by omega))
    unfold parseHexDigit
    rw [ht]
    have hc : (48 ≤ 48 + d && 48 + d ≤ 57) = true := by
      simp only [Bool.and_eq_true, decide_eq_true_eq]
      omega
    simp only [hc, if_true]
    congr 1
    omega
  · have ht : (hexDigitChar d).toNat = 87 + d := by
      unfold hexDigitChar
      rw [if_neg h10]
      exact toNat_ofNat_valid _ (isValidChar_of_lt _ (by omega))
    unfold parseHexDigit
    rw [ht]
    have hc1 : (48 ≤ 87 + d && 87 + d ≤ 57) = false := by
      simp only [Bool.and_eq_false_iff, decide_eq_false_iff_not]
      omega
    have hc2 : (97 ≤ 87 + d && 87 + d ≤ 102) = true := by
      simp only [Bool.and_eq_true, decide_eq_true_eq]
      omega
    simp only [hc1, hc2, Bool.false_eq_true, if_false, if_true]
    congr 1
    omega

theorem parseStringBody_backslash (cs : List Char) :
    parseStringBody ('\\' :: cs) = parseEscapeSeq cs := by
  rw [parseStringBody]
  rfl

theorem parseEscapeSeq_u (cs1 : List Char) : parseEscapeSeq ('u' :: cs1) = parseUniSeq cs1 := by
  rw [parseEscapeSeq]
  rfl

theorem parseStringBody_escapeChar (c : Char) (tail : List Char) :
    parseStringBody (escapeChar c ++ tail) = consStr c (parseStringBody tail) := by
  by_cases h1 : c = '"'
  · subst h1
    show parseStringBody ('\\' :: '"' :: tail) = _
    rw [parseStringBody_backslash, parseEscapeSeq]
    rfl
  · by_cases h2 : c = '\\'
    · subst h2
      show parseStringBody ('\\' :: '\\' :: tail) = _
      rw [parseStringBody_backslash, parseEscapeSeq]
      rfl
    · by_cases h3 : c = Char.ofNat 8
      · subst h3
        show parseStringBody ('\\' :: 'b' :: tail) = _
        rw [parseStringBody_backslash, parseEscapeSeq]
        rfl
      · by_cases h4 : c = Char.ofNat 9
        · subst h4
          show parseStringBody ('\\' :: 't' :: tail) = _
          rw [parseStringBody_backslash, parseEscapeSeq]
          rfl
        · by_cases h5 : c = Char.ofNat 10
          · subst h5
            show parseStringBody ('\\' :: 'n' :: tail) = _
            rw [parseStringBody_backslash, parseEscapeSeq]
            rfl
          · by_cases h6 : c = Char.ofNat 12
            · subst h6
              show parseStringBody ('\\' :: 'f' :: tail) = _
              rw [parseStringBody_backslash, parseEscapeSeq]
              rfl
            · by_cases h7 : c = Char.ofNat 13
              · subst h7
                show parseStringBody ('\\' :: 'r' :: tail) = _
                rw [parseStringBody_backslash, parseEscapeSeq]
                rfl
              · by_cases h8 : c.toNat < 32
                · have hesc : escapeChar c =
                      ['\\', 'u', '0', '0', hexDigitChar (c.toNat / 16), hexDigitChar (c.toNat % 16)] := by
                    unfold escapeChar
                    rw [if_neg h1, if_neg h2, if_neg h3, if_neg h4, if_neg h5, if_neg h6,
                      if_neg h7, if_pos h8]
                  rw [hesc]
                  show parseStringBody ('\\' :: 'u' :: '0' :: '0' ::
                    hexDigitChar (c.toNat / 16) :: hexDigitChar (c.toNat % 16) :: tail) = _
                  rw [parseStringBody_backslash, parseEscapeSeq_u, parseUniSeq]
                  have hx : parseHexDigit (hexDigitChar (c.toNat / 16)) = some (c.toNat / 16) :=
                    parseHexDigit_hexDigitChar _ (by omega)
                  have hy : parseHexDigit (hexDigitChar (c.toNat % 16)) = some (c.toNat % 16) :=
                    parseHexDigit_hexDigitChar _ (by omega)
                  have h0 : parseHexDigit '0' = some 0 := rfl
                  have hsur : (55296 ≤ 4096 * 0 + 256 * 0 + 16 * (c.toNat / 16) + c.toNat % 16 &&
                      4096 * 0 + 256 * 0 + 16 * (c.toNat / 16) + c.toNat % 16 ≤ 56319) = false := by
                    simp only [Bool.and_eq_false_iff, decide_eq_false_iff_not]
                    omega
                  have hval : 4096 * 0 + 256 * 0 + 16 * (c.toNat / 16) + c.toNat % 16 = c.toNat := by
                    omega
                  have hv : c.toNat.isValidChar := c.valid
                  simp only [parseUnicodeEscape, hx, hy, h0, hsur, Bool.false_eq_true, if_false,
                    hval, charFromCode, if_pos hv, ofNat_toNat]
                  have hs2 : (55296 ≤ c.toNat && c.toNat ≤ 56319) = false := by
                    simp only [Bool.and_eq_false_iff, decide_eq_false_iff_not]
                    omega
                  rw [hs2]
                  simp only [Bool.false_eq_true, if_false]
                · have hesc : escapeChar c = [c] := by
                    unfold escapeChar
                    rw [if_neg h1, if_neg h2, if_neg h3, if_neg h4, if_neg h5, if_neg h6,
                      if_neg h7, if_neg h8]
                  rw [hesc]
                  show parseStringBody (c :: tail) = _
                  rw [parseStringBody, if_neg h1, if_neg h2, if_neg h8]

theorem parseStringBody_escapeList (s : List Char) : ∀ rest,
    parseStringBody (escapeList s ++ '"' :: rest) = some (s, rest) := by
  induction s with
  | nil => intro rest; rfl
  | cons c s ih =>
    intro rest
    have : escapeList (c :: s) = escapeChar c ++ escapeList s := by
      simp [escapeList]
    rw [this, List.append_assoc, parseStringBody_escapeChar, ih rest]
    rfl

mutual

/-- Structural size of a JSON value; used only as a lower bound for
the parser fuel. -/
def sizeJ : Json → Nat
  | Json.null => 1
  | Json.bool _ => 1
  | Json.num _ => 1
  | Json.str _ => 1
  | Json.arr l => sizeL l + 1
  | Json.obj l => sizeF l + 1

/-- Structural size of a JSON array tail. -/
def sizeL : JsonList → Nat
  | JsonList.nil => 1
  | JsonList.cons x xs => sizeJ x + sizeL xs + 1

/-- Structural size of a JSON object tail. -/
def sizeF : JsonFields → Nat
  | JsonFields.nil => 1
  | JsonFields.cons _ v kvs => sizeJ v + sizeF kvs + 2

end

theorem printJson_head (v : Json) :
    ∃ c cs', printJson v = c :: cs' ∧ isWsChar c = false ∧ c ≠ ']' := by
  cases v with
  | null => exact ⟨'n', _, rfl, by decide, by decide⟩
  | bool b =>
    cases b with
    | true => exact ⟨'t', _, rfl, by decide, by decide⟩
    | false => exact ⟨'f', _, rfl, by decide, by decide⟩
  | num n =>
    show ∃ c cs', printInt n = c :: cs' ∧ _
    by_cases hneg : n < 0
    · exact ⟨'-', printNat n.natAbs, by rw [printInt, if_pos hneg], by decide, by decide⟩
    · rw [printInt, if_neg hneg]
      rcases hd : printNat n.toNat with _ | ⟨d, ds⟩
      · exact absurd hd (printNat_ne_nil _)
      · have hdd : isDigitChar d = true := by
          apply printNat_digits n.toNat
          rw [hd]
          exact List.mem_cons_self d ds
        refine ⟨d, ds, rfl, isWsChar_of_digit hdd, ?_⟩
        apply ne_of_toNat_ne
        have := isDigitChar_bounds hdd
        have h93 : (']' : Char).toNat = 93 := rfl
        omega
  | str s => exact ⟨'"', _, rfl, by decide, by decide⟩
  | arr l =>
    cases l with
    | nil => exact ⟨'[', _, rfl, by decide, by decide⟩
    | cons x xs => exact ⟨'[', _, rfl, by decide, by decide⟩
  | obj l =>
    cases l with
    | nil => exact ⟨lcurly, _, rfl, by decide, by decide⟩
    | cons k v kvs => exact ⟨lcurly, _, rfl, by decide, by decide⟩

theorem skipWs_print (v : Json) (r : List Char) :
    skipWs (printJson v ++ r) = printJson v ++ r := by
  obtain ⟨c, cs', hv, hws, _⟩ := printJson_head v
  rw [hv, List.cons_append, skipWs_not_ws _ hws]

theorem numTerminated_elems (xs : JsonList) (r : List Char) :
    numTerminated (printTailElems xs ++ ']' :: r) = true := by
  cases xs <;> rfl

theorem numTerminated_members (kvs : JsonFields) (r : List Char) :
    numTerminated (printTailMembers kvs ++ rcurly :: r) = true := by
  cases kvs <;> rfl

theorem skipWs_elems (xs : JsonList) (r : List Char) :
    skipWs (printTailElems xs ++ ']' :: r) = printTailElems xs ++ ']' :: r := by
  cases xs <;> rfl

theorem skipWs_members (kvs : JsonFields) (r : List Char) :
    skipWs (printTailMembers kvs ++ rcurly :: r) = printTailMembers kvs ++ rcurly :: r := by
  cases kvs <;> rfl

theorem sizeJ_pos (v : Json) : 1 ≤ sizeJ v := by
  cases v <;> simp [sizeJ]

theorem sizeL_pos (xs : JsonList) : 1 ≤ sizeL xs := by
  cases xs <;> simp [sizeL]

theorem sizeF_pos (kvs : JsonFields) : 1 ≤ sizeF kvs := by
  cases kvs <;> simp [sizeF]

theorem parseValue_null_tok (f : Nat) (rest : List Char) :
    parseValue (f + 1) ('n' :: 'u' :: 'l' :: 'l' :: rest) = some (Json.null, rest) := by
  rw [parseValue.eq_def]
  rfl

theorem parseValue_true_tok (f : Nat) (rest : List Char) :
    parseValue (f + 1) ('t' :: 'r' :: 'u' :: 'e' :: rest) = some (Json.bool true, rest) := by
  rw [parseValue.eq_def]
  rfl

theorem parseValue_false_tok (f : Nat) (rest : List Char) :
    parseValue (f + 1) ('f' :: 'a' :: 'l' :: 's' :: 'e' :: rest) = some (Json.bool false, rest) := by
  rw [parseValue.eq_def]
  rfl

theorem parseValue_quote (f : Nat) (cs1 : List Char) :
    parseValue (f + 1) ('"' :: cs1) =
      match parseStringBody cs1 with
      | none => none
      | some (s, rest) => some (Json.str s, rest) := by
  rw [parseValue.eq_def]
  rfl

theorem parseValue_lbrack (f : Nat) (cs1 : List Char) :
    parseValue (f + 1) ('[' :: cs1) =
      match skipWs cs1 with
      | ']' :: rest => some (Json.arr JsonList.nil, rest)
      | cs2 =>
        match parseValue f cs2 with
        | none => none
        | some (v, rest) =>
          match parseElemsTail f (skipWs rest) with
          | none => none
          | some (vs, rest2) => some (Json.arr (JsonList.cons v vs), rest2) := by
  rw [parseValue.eq_def]
  rfl

theorem parseValue_lcurly (f : Nat) (cs1 : List Char) :
    parseValue (f + 1) (lcurly :: cs1) =
      match skipWs cs1 with
      | [] => none
      | d :: rest0 =>
        if d = rcurly then some (Json.obj JsonFields.nil, rest0)
        else
          match parseMember f (d :: rest0) with
          | none => none
          | some (k, v, rest) =>
            match parseMembersTail f (skipWs rest) with
            | none => none
            | some (kvs, rest2) => some (Json.obj (JsonFields.cons k v kvs), rest2) := by
  rw [parseValue.eq_def]
  rfl

theorem parseValue_other (f : Nat) (c : Char) (cs1 : List Char)
    (h1 : ¬c = 'n') (h2 : ¬c = 't') (h3 : ¬c = 'f') (h4 : ¬c = '"')
    (h5 : ¬c = '[') (h6 : ¬c = lcurly) :
    parseValue (f + 1) (c :: cs1) = parseNumber (c :: cs1) := by
  rw [parseValue.eq_def]
  simp only [if_neg h1, if_neg h2, if_neg h3, if_neg h4, if_neg h5, if_neg h6]

theorem parseElemsTail_rbrack (f : Nat) (cs1 : List Char) :
    parseElemsTail (f + 1) (']' :: cs1) = some (JsonList.nil, cs1) := by
  rw [parseElemsTail.eq_def]
  rfl

theorem parseElemsTail_comma (f : Nat) (cs1 : List Char) :
    parseElemsTail (f + 1) (',' :: cs1) =
      match parseValue f (skipWs cs1) with
      | none => none
      | some (v, rest) =>
        match parseElemsTail f (skipWs rest) with
        | none => none
        | some (vs, rest2) => some (JsonList.cons v vs, rest2) := by
  rw [parseElemsTail.eq_def]
  rfl

theorem parseMember_quote (f : Nat) (cs1 : List Char) :
    parseMember (f + 1) ('"' :: cs1) =
      match parseStringBody cs1 with
      | none => none
      | some (k, rest) =>
        match skipWs rest with
        | ':' :: rest2 =>
          match parseValue f (skipWs rest2) with
          | none => none
          | some (v, rest3) => some (k, v, rest3)
        | _ => none := by
  rw [parseMember.eq_def]
  rfl

theorem parseMembersTail_comma (f : Nat) (cs1 : List Char) :
    parseMembersTail (f + 1) (',' :: cs1) =
      match parseMember f (skipWs cs1) with
      | none => none
      | some (k, v, rest) =>
        match parseMembersTail f (skipWs rest) with
        | none => none
        | some (kvs, rest2) => some (JsonFields.cons k v kvs, rest2) := by
  rw [parseMembersTail.eq_def]
  rfl

theorem parseMembersTail_rcurly (f : Nat) (cs1 : List Char) :
    parseMembersTail (f + 1) (rcurly :: cs1) = some (JsonFields.nil, cs1) := by
  rw [parseMembersTail.eq_def]
  rfl

theorem printInt_head_cases (n : Int) :
    ∃ c cs', printInt n = c :: cs' ∧ (c = '-' ∨ isDigitChar c = true) := by
  by_cases hneg : n < 0
  · exact ⟨'-', printNat n.natAbs, by rw [printInt, if_pos hneg], Or.inl rfl⟩
  · rw [printInt, if_neg hneg]
    rcases hd : printNat n.toNat with _ | ⟨d, ds⟩
    · exact absurd hd (printNat_ne_nil _)
    · refine ⟨d, ds, rfl, Or.inr ?_⟩
      apply printNat_digits n.toNat
      rw [hd]
      exact List.mem_cons_self d ds

mutual

theorem parseValue_print (v : Json) (fuel : Nat) (rest : List Char)
    (hf : sizeJ v ≤ fuel) (hr : numTerminated rest = true) :
    parseValue fuel (printJson v ++ rest) = some (v, rest) := by
  obtain ⟨f, rfl⟩ : ∃ f, fuel = f + 1 := by
    have := sizeJ_pos v
    cases fuel with
    | zero => omega
    | succ f => exact ⟨f, rfl⟩
  cases v with
  | null => exact parseValue_null_tok f rest
  | bool b =>
    cases b with
    | true => exact parseValue_true_tok f rest
    | false => exact parseValue_false_tok f rest
  | num n =>
    obtain ⟨c, cs', hd, hcase⟩ := printInt_head_cases n
    have hb : 45 ≤ c.toNat ∧ c.toNat ≤ 57 := by
      rcases hcase with h | h
      · subst h; exact ⟨by decide, by decide⟩
      · have := isDigitChar_bounds h
        omega
    have hn : ¬c = 'n' := ne_of_toNat_ne (by
      have : ('n' : Char).toNat = 110 := rfl
      omega)
    have htt : ¬c = 't' := ne_of_toNat_ne (by
      have : ('t' : Char).toNat = 116 := rfl
      omega)
    have hff : ¬c = 'f' := ne_of_toNat_ne (by
      have : ('f' : Char).toNat = 102 := rfl
      omega)
    have hq : ¬c = '"' := ne_of_toNat_ne (by
      have : ('"' : Char).toNat = 34 := rfl
      omega)
    have hbrk : ¬c = '[' := ne_of_toNat_ne (by
      have : ('[' : Char).toNat = 91 := rfl
      omega)
    have hcur : ¬c = lcurly := ne_of_toNat_ne (by
      have : lcurly.toNat = 123 := rfl
      omega)
    rw [printJson, hd, List.cons_append, parseValue_other f c _ hn htt hff hq hbrk hcur]
    rw [← List.cons_append, ← hd]
    exact parseNumber_print n rest hr
  | str s =>
    rw [printJson]
    have hshape : ('"' :: escapeList s ++ ['"']) ++ rest = '"' :: (escapeList s ++ '"' :: rest) := by
      simp
    rw [hshape, parseValue_quote, parseStringBody_escapeList]
  | arr l =>
    cases l with
    | nil =>
      rw [printJson]
      rw [show (['[', ']'] : List Char) ++ rest = '[' :: ']' :: rest from rfl]
      rw [parseValue_lbrack]
      rfl
    | cons x xs =>
      rw [printJson]
      have hshape : ('[' :: (printJson x ++ printTailElems xs ++ [']'])) ++ rest
          = '[' :: (printJson x ++ (printTailElems xs ++ ']' :: rest)) := by
        simp
      rw [hshape, parseValue_lbrack, skipWs_print x]
      obtain ⟨c, cs', hx, hws, hbr⟩ := printJson_head x
      rw [hx, List.cons_append]
      split
      · next rest' heq =>
        injection heq with he1 he2
        exact absurd he1 hbr
      · next =>
        rw [← List.cons_append, ← hx]
        have hsx : sizeJ x ≤ f := by
          have h1 := sizeL_pos xs
          simp only [sizeJ, sizeL] at hf
          omega
        have hsxs : sizeL xs ≤ f := by
          have h1 := sizeJ_pos x
          simp only [sizeJ, sizeL] at hf
          omega
        rw [parseValue_print x f _ hsx (numTerminated_elems xs rest)]
        show (match parseElemsTail f (skipWs (printTailElems xs ++ ']' :: rest)) with
          | none => none
          | some (vs, rest2) => some (Json.arr (JsonList.cons x vs), rest2))
          = some (Json.arr (JsonList.cons x xs), rest)
        rw [skipWs_elems, parseElemsTail_print xs f rest hsxs]
  | obj l =>
    cases l with
    | nil =>
      rw [printJson]
      rw [show ([lcurly, rcurly] : List Char) ++ rest = lcurly :: rcurly :: rest from rfl]
      rw [parseValue_lcurly]
      rfl
    | cons k v kvs =>
      rw [printJson]
      have hshape : (lcurly :: ('"' :: escapeList k ++ '"' :: ':' :: printJson v ++
            printTailMembers kvs ++ [rcurly])) ++ rest
          = lcurly :: ('"' :: (escapeList k ++ '"' :: ':' ::
              (printJson v ++ (printTailMembers kvs ++ rcurly :: rest)))) := by
        simp
      rw [hshape, parseValue_lcurly, skipWs_not_ws _ (by decide)]
      have hA : sizeJ v + 1 ≤ f := by
        have h1 := sizeF_pos kvs
        simp only [sizeJ, sizeF] at hf
        omega
      have hB : sizeF kvs ≤ f := by
        have h1 := sizeJ_pos v
        simp only [sizeJ, sizeF] at hf
        omega
      show (if ('"' : Char) = rcurly then some (Json.obj JsonFields.nil,
          escapeList k ++ '"' :: ':' :: (printJson v ++ (printTailMembers kvs ++ rcurly :: rest)))
          else (match parseMember f ('"' :: (escapeList k ++ '"' :: ':' ::
            (printJson v ++ (printTailMembers kvs ++ rcurly :: rest)))) with
          | none => none
          | some (k2, v2, rest2) =>
            match parseMembersTail f (skipWs rest2) with
            | none => none
            | some (kvs2, rest3) => some (Json.obj (JsonFields.cons k2 v2 kvs2), rest3)))
          = some (Json.obj (JsonFields.cons k v kvs), rest)
      rw [if_neg (by decide : ¬('"' : Char) = rcurly)]
      rw [parseMember_print k v f _ hA (numTerminated_members kvs rest)]
      show (match parseMembersTail f (skipWs (printTailMembers kvs ++ rcurly :: rest)) with
        | none => none
        | some (kvs2, rest3) => some (Json.obj (JsonFields.cons k v kvs2), rest3))
        = some (Json.obj (JsonFields.cons k v kvs), rest)
      rw [skipWs_members, parseMembersTail_print kvs f rest hB]
termination_by 2 * sizeOf v
decreasing_by
  all_goals subst_vars
  all_goals decreasing_tactic

theorem parseElemsTail_print (xs : JsonList) (fuel : Nat) (rest : List Char)
    (hf : sizeL xs ≤ fuel) :
    parseElemsTail fuel (printTailElems xs ++ ']' :: rest) = some (xs, rest) := by
  obtain ⟨f, rfl⟩ : ∃ f, fuel = f + 1 := by
    have := sizeL_pos xs
    cases fuel with
    | zero => omega
    | succ f => exact ⟨f, rfl⟩
  cases xs with
  | nil =>
    rw [printTailElems, List.nil_append, parseElemsTail_rbrack]
  | cons x xs =>
    rw [printTailElems]
    have hshape : (',' :: printJson x ++ printTailElems xs) ++ ']' :: rest
        = ',' :: (printJson x ++ (printTailElems xs ++ ']' :: rest)) := by
      simp
    rw [hshape, parseElemsTail_comma, skipWs_print x]
    have hsx : sizeJ x ≤ f := by
      have h1 := sizeL_pos xs
      simp only [sizeL] at hf
      omega
    have hsxs : sizeL xs ≤ f := by
      have h1 := sizeJ_pos x
      simp only [sizeL] at hf
      omega
    rw [parseValue_print x f _ hsx (numTerminated_elems xs rest)]
    show (match parseElemsTail f (skipWs (printTailElems xs ++ ']' :: rest)) with
      | none => none
      | some (vs, rest2) => some (JsonList.cons x vs, rest2))
      = some (JsonList.cons x xs, rest)
    rw [skipWs_elems, parseElemsTail_print xs f rest hsxs]
termination_by 2 * sizeOf xs
decreasing_by
  all_goals subst_vars
  all_goals decreasing_tactic

theorem parseMember_print (k : List Char) (v : Json) (fuel : Nat) (rest : List Char)
    (hf : sizeJ v + 1 ≤ fuel) (hr : numTerminated rest = true) :
    parseMember fuel ('"' :: (escapeList k ++ '"' :: ':' :: (printJson v ++ rest)))
      = some (k, v, rest) := by
  obtain ⟨f, rfl⟩ : ∃ f, fuel = f + 1 := by
    cases fuel with
    | zero => omega
    | succ f => exact ⟨f, rfl⟩
  rw [parseMember_quote, parseStringBody_escapeList k]
  show (match skipWs (':' :: (printJson v ++ rest)) with
    | ':' :: rest2 =>
      match parseValue f (skipWs rest2) with
      | none => none
      | some (v2, rest3) => some (k, v2, rest3)
    | _ => none)
    = some (k, v, rest)
  rw [show skipWs (':' :: (printJson v ++ rest)) = ':' :: (printJson v ++ rest)
    from skipWs_not_ws _ (by decide)]
  show (match parseValue f (skipWs (printJson v ++ rest)) with
    | none => none
    | some (v2, rest3) => some (k, v2, rest3))
    = some (k, v, rest)
  rw [skipWs_print v]
  rw [parseValue_print v f rest (by omega) hr]
termination_by 2 * sizeOf v + 1
decreasing_by
  all_goals subst_vars
  all_goals decreasing_tactic

theorem parseMembersTail_print (kvs : JsonFields) (fuel : Nat) (rest : List Char)
    (hf : sizeF kvs ≤ fuel) :
    parseMembersTail fuel (printTailMembers kvs ++ rcurly :: rest) = some (kvs, rest) := by
  obtain ⟨f, rfl⟩ : ∃ f, fuel = f + 1 := by
    have := sizeF_pos kvs
    cases fuel with
    | zero => omega
    | succ f => exact ⟨f, rfl⟩
  cases kvs with
  | nil =>
    rw [printTailMembers, List.nil_append, parseMembersTail_rcurly]
  | cons k v kvt =>
    rw [printTailMembers]
    have hshape : (',' :: '"' :: escapeList k ++ '"' :: ':' :: printJson v ++
          printTailMembers kvt) ++ rcurly :: rest
        = ',' :: ('"' :: (escapeList k ++ '"' :: ':' ::
            (printJson v ++ (printTailMembers kvt ++ rcurly :: rest)))) := by
      simp
    rw [hshape, parseMembersTail_comma]
    rw [show skipWs ('"' :: (escapeList k ++ '"' :: ':' ::
        (printJson v ++ (printTailMembers kvt ++ rcurly :: rest))))
        = '"' :: (escapeList k ++ '"' :: ':' ::
          (printJson v ++ (printTailMembers kvt ++ rcurly :: rest)))
      from skipWs_not_ws _ (by decide)]
    have hA : sizeJ v + 1 ≤ f := by
      have h1 := sizeF_pos kvt
      simp only [sizeF] at hf
      omega
    have hB : sizeF kvt ≤ f := by
      have h1 := sizeJ_pos v
      simp only [sizeF] at hf
      omega
    rw [parseMember_print k v f _ hA (numTerminated_members kvt rest)]
    show (match parseMembersTail f (skipWs (printTailMembers kvt ++ rcurly :: rest)) with
      | none => none
      | some (kvs2, rest2) => some (JsonFields.cons k v kvs2, rest2))
      = some (JsonFields.cons k v kvt, rest)
    rw [skipWs_members, parseMembersTail_print kvt f rest hB]
termination_by 2 * sizeOf kvs
decreasing_by
  all_goals subst_vars
  all_goals decreasing_tactic

end

mutual

theorem sizeJ_le (v : Json) : sizeJ v ≤ 2 * (printJson v).length := by
  cases v with
  | null => simp [sizeJ, printJson]
  | bool b => cases b <;> simp [sizeJ, printJson]
  | num n =>
    obtain ⟨c, cs', hd2, -⟩ := printInt_head_cases n
    simp only [sizeJ, printJson, hd2, List.length_cons]
    omega
  | str s =>
    simp only [sizeJ, printJson, List.length_cons, List.length_append]
    omega
  | arr l =>
    cases l with
    | nil => simp [sizeJ, sizeL, printJson]
    | cons x xs =>
      have h1 := sizeJ_le x
      have h2 := sizeL_le xs
      simp only [sizeJ, sizeL, printJson, List.length_cons, List.length_append]
      omega
  | obj l =>
    cases l with
    | nil => simp [sizeJ, sizeF, printJson]
    | cons k v kvs =>
      have h1 := sizeJ_le v
      have h2 := sizeF_le kvs
      simp only [sizeJ, sizeF, printJson, List.length_cons, List.length_append]
      omega
termination_by 2 * sizeOf v
decreasing_by
  all_goals subst_vars
  all_goals decreasing_tactic

theorem sizeL_le (xs : JsonList) : sizeL xs ≤ 2 * (printTailElems xs).length + 1 := by
  cases xs with
  | nil => simp [sizeL, printTailElems]
  | cons x xs =>
    have h1 := sizeJ_le x
    have h2 := sizeL_le xs
    simp only [sizeL, printTailElems, List.length_cons, List.length_append]
    omega
termination_by 2 * sizeOf xs
decreasing_by
  all_goals subst_vars
  all_goals decreasing_tactic

theorem sizeF_le (kvs : JsonFields) : sizeF kvs ≤ 2 * (printTailMembers kvs).length + 1 := by
  cases kvs with
  | nil => simp [sizeF, printTailMembers]
  | cons k v kvt =>
    have h1 := sizeJ_le v
    have h2 := sizeF_le kvt
    simp only [sizeF, printTailMembers, List.length_cons, List.length_append]
    omega
termination_by 2 * sizeOf kvs
decreasing_by
  all_goals subst_vars
  all_goals decreasing_tactic

end

theorem jsonParse_print (v : Json) : jsonParse (printJson v) = some v := by
  unfold jsonParse
  obtain ⟨c, cs', hv, hws, _⟩ := printJson_head v
  have hskip : skipWs (printJson v) = printJson v := by
    rw [hv]
    exact skipWs_not_ws _ hws
  rw [hskip]
  have hfuel : sizeJ v ≤ 2 * (printJson v).length + 2 := le_trans (sizeJ_le v) (by omega)
  have hpv := parseValue_print v (2 * (printJson v).length + 2) [] hfuel rfl
  rw [List.append_nil] at hpv
  rw [hpv]
  rfl

/-- Key of the success variant in serde's external tagging of a Rust
Result value. -/
def okKey : List Char := ['O', 'k']

/-- Key of the failure variant in serde's external tagging of a Rust
Result value. -/
def errKey : List Char := ['E', 'r', 'r']

/-- Deserialization of a Rust Result of two JSON values
(serde_json::from_slice as called in get_return_value): serde encodes
a Result with an external tag, a single-key JSON object whose key is
Ok or Err; anything else is a decode error. -/
def decodeResult (cs : List Char) : Option (Except Json Json) :=
  match jsonParse cs with
  | some (Json.obj (JsonFields.cons k v JsonFields.nil)) =>
    if k = okKey then some (Except.ok v)
    else if k = errKey then some (Except.error v)
    else none
  | _ => none

/-- Modelled from the spec: the encode direction of the Outcome Codec.
The guest modules that write these bytes are not part of this
repository; the wire format is fixed by the decoder in
get_return_value, and this definition is its dual, serde_json
serialization of a Rust Result of two JSON values as the single-key
object tagged Ok or Err. -/
def encodeResult : Except Json Json → List Char
  | Except.ok v => printJson (Json.obj (JsonFields.cons okKey v JsonFields.nil))
  | Except.error v => printJson (Json.obj (JsonFields.cons errKey v JsonFields.nil))

theorem decodeResult_encodeResult (r : Except Json Json) :
    decodeResult (encodeResult r) = some r := by
  cases r with
  | ok v =>
    rw [encodeResult, decodeResult, jsonParse_print]
    rfl
  | error v =>
    rw [encodeResult, decodeResult, jsonParse_print]
    rfl

/-! ### Part 3: the runtime of wasmtime.rs -/

/-- Declarative capability set of an action (crate::types::ActionCapabilities):
a single optional directory path. -/
structure ActionCapabilities where
  dir : Option String

/-- An action: wasm bytecode plus capabilities (crate::types::WasmAction). -/
structure WasmAction where
  code : List Nat
  capabilities : ActionCapabilities

/-- Result of running a piece of Rust code, distinguishing a value, an
error returned to the caller (Result::Err, produced by the question
mark operator), and a Rust process abort (a panicking unwrap). -/
inductive Res (α : Type) where
  | ok (a : α)
  | err (e : String)
  | aborted (msg : String)
deriving Repr

/-- Observable steps of one invocation, in order of occurrence. -/
inductive Event where
  | mkdir (d : String)
  | openDir (d : String)
  | compile
  | instantiate
  | getDefault
  | callAllocate (len : Int)
  | callGetPtr
  | callGetLen
  | callMain
  | memWrite (off : Int) (len : Nat)
  | memRead (off : Int) (len : Nat)
  | decode
deriving DecidableEq, Repr

/-- State of a live guest instance: its exported linear memory (bytes
modelled as characters, see Part 1) and an abstract register standing
for whatever private state the guest keeps (buffer length, allocator
state, and so on). -/
structure GuestState where
  mem : List Char
  reg : Nat

/-- Behaviour of an instantiated guest module: which exports exist,
and what each exported call does to the guest state (an Except.error
is a wasm trap).  This is the black-box interface the spec assumes of
the sandboxed-execution engine.  hasDefault covers the zero-argument
entry point looked up through get_default; typed-signature extraction
(get1/get0) is modelled as succeeding whenever the export exists. -/
structure GuestImpl where
  hasAllocate : Bool
  hasGetPtr : Bool
  hasGetLen : Bool
  hasMemory : Bool
  hasDefault : Bool
  allocate : Int → GuestState → Except String GuestState
  getPtr : GuestState → Except String (Int × GuestState)
  getLen : GuestState → Except String (Int × GuestState)
  main : GuestState → Except String GuestState
  init : GuestState

/-- WASI context assembled by build_wasi_context (WasiCtxBuilder). -/
structure WasiCtx where
  inheritStdout : Bool
  inheritStderr : Bool
  args : List String
  preopens : List String

/-- The wasmtime engine as an oracle: adding the WASI imports to the
linker (wasi.add_to_linker), compiling bytecode (Module::new), and
instantiating the module against a WASI context (linker.instantiate). -/
structure EngineOracle where
  linkWasi : WasiCtx → Except String Unit
  compile : List Nat → Except String Unit
  instantiate : List Nat → WasiCtx → Except String GuestImpl

/-- Host filesystem model for the directory-capability path: the
existing directories, plus oracles saying on which paths directory
creation and opening fail. -/
structure FsWorld where
  dirs : List String
  createFails : String → Bool
  openFails : String → Bool

/-- Modelled from the spec: DirBuilder::new().recursive(true).create,
recursive directory creation with mkdir -p semantics — it succeeds
without change when the directory already exists (std::fs is not part
of this repository). -/
def createDirRecursive (fs : FsWorld) (d : String) : Except String FsWorld :=
  if fs.dirs.contains d then Except.ok fs
  else if fs.createFails d then Except.error "could not create directory"
  else Except.ok { fs with dirs := d :: fs.dirs }

/-- Modelled from the spec: File::open on the directory path (std::fs
is not part of this repository). -/
def fileOpen (fs : FsWorld) (d : String) : Except String Unit :=
  if fs.openFails d then Except.error "could not open directory" else Except.ok ()

/-- Value of the Rust cast of a usize length to i32: two's-complement
wrap into the i32 range. -/
def i32_of_usize (n : Nat) : Int :=
  if n % 4294967296 < 2147483648 then Int.ofNat (n % 4294967296)
  else Int.ofNat (n % 4294967296) - 4294967296

/-- Value of the Rust cast of an i32 value to usize on a 64-bit host:
sign extension reinterpreted as unsigned. -/
def usize_of_i32 (n : Int) : Nat := (n % 18446744073709551616).toNat

/-- Raw unchecked copy of data into guest memory at a byte offset, as
performed by copy_from_nonoverlapping in pass_string_arg.  A write
reaching outside the memory is undefined behaviour in the source; the
model keeps the in-range part, which no claim depends on. -/
def rawWrite (mem : List Char) (off : Int) (data : List Char) : List Char :=
  (List.range mem.length).map fun (i : Nat) =>
    if off ≤ Int.ofNat i ∧ Int.ofNat i < off + data.length then
      data.getD (Int.ofNat i - off).toNat (Char.ofNat 0)
    else mem.getD i (Char.ofNat 0)

/-- Raw unchecked read of len bytes of guest memory from a byte
offset, as performed by slice_from_raw_parts in get_return_value.  A
read reaching outside the memory is undefined behaviour in the source;
the model yields NUL bytes there, which no claim depends on. -/
def rawRead (mem : List Char) (off : Int) (len : Nat) : List Char :=
  (List.range len).map fun (i : Nat) => mem.getD (off + Int.ofNat i).toNat (Char.ofNat 0)

/-- Error message of the missing allocate-space export (line 65). -/
def errAllocate : String := "Expected the module to export wasm_memory_buffer_allocate_space"

/-- Error message of the missing get-buffer-pointer export (line 73). -/
def errGetPtr : String := "Expected the module to export get_wasm_memory_buffer_pointer"

/-- Error message of the missing named memory (line 80). -/
def errMemory : String := "Expected the module to export a memory named memory"

/-- Error message of the missing default export (line 31). -/
def errDefault : String := "expected the module to have a default export"

/-- Message of a Rust unwrap on a missing value. -/
def msgUnwrapNone : String := "called unwrap on a None value"

/-- Message of the panicking unwrap on a serde_json decode error
(line 118). -/
def msgDecode : String := "called unwrap on a serde error value"

/-- Embedding of build_wasi_context (wasmtime.rs lines 40 to 59): the
builder inherits stdout and stderr, passes the decimal byte length of
the serialized input as the single argument, and, when a directory
capability is declared, creates the directory recursively with a
panicking unwrap on failure (line 52), opens it with question-mark
propagation (line 53), and grants it as the single preopened
directory.  The builder's final build call (line 58) has no failure
mode relevant to any claim and is modelled as succeeding. -/
def build_wasi_context (capabilities : ActionCapabilities) (arg_len : Nat) (fs : FsWorld) :
    Res WasiCtx × FsWorld × List Event :=
  let base : WasiCtx :=
    { inheritStdout := true, inheritStderr := true, args := [toString arg_len], preopens := [] }
  match capabilities.dir with
  | none => (Res.ok base, fs, [])
  | some dir =>
    match createDirRecursive fs dir with
    | Except.error m => (Res.aborted m, fs, [Event.mkdir dir])
    | Except.ok fs1 =>
      match fileOpen fs1 dir with
      | Except.error m => (Res.err m, fs1, [Event.mkdir dir, Event.openDir dir])
      | Except.ok _ =>
        (Res.ok { base with preopens := [dir] }, fs1, [Event.mkdir dir, Event.openDir dir])

/-- Embedding of pass_string_arg (wasmtime.rs lines 61 to 90).  The
absence of each required export yields the named error before the
corresponding call; the allocate call propagates a trap as an error
(question mark, line 69); the get-pointer call unwraps its result and
panics on a trap (line 76); the copy into guest memory is raw and
unchecked (lines 83 to 87). -/
def pass_string_arg (inst : GuestImpl) (st : GuestState) (json_bytes : List Char) :
    Res GuestState × List Event :=
  if inst.hasAllocate = false then
    (Res.err errAllocate, [])
  else
    match inst.allocate (i32_of_usize json_bytes.length) st with
    | Except.error t => (Res.err t, [Event.callAllocate (i32_of_usize json_bytes.length)])
    | Except.ok st1 =>
      if inst.hasGetPtr = false then
        (Res.err errGetPtr, [Event.callAllocate (i32_of_usize json_bytes.length)])
      else
        match inst.getPtr st1 with
        | Except.error t =>
          (Res.aborted t, [Event.callAllocate (i32_of_usize json_bytes.length), Event.callGetPtr])
        | Except.ok (off, st2) =>
          if inst.hasMemory = false then
            (Res.err errMemory,
             [Event.callAllocate (i32_of_usize json_bytes.length), Event.callGetPtr])
          else
            (Res.ok { st2 with mem := rawWrite st2.mem off json_bytes },
             [Event.callAllocate (i32_of_usize json_bytes.length), Event.callGetPtr,
              Event.memWrite off json_bytes.length])

/-- Embedding of get_return_value (wasmtime.rs lines 92 to 119).
Every failure path here is a panicking unwrap: the two export lookups
(lines 95 to 105 — despite the comment there, get_wasm_memory_buffer_len
was never checked earlier), the two guest calls (lines 107 to 109, the
length call before the pointer call, as in the source), the memory
lookup (line 111), and the serde_json decode (line 118).  The Rust
function returns Result<Value, Value> with no outer error level, so
the embedded result is ok or aborted, never err. -/
def get_return_value (inst : GuestImpl) (st : GuestState) :
    Res (Except Json Json) × List Event :=
  if inst.hasGetPtr = false then (Res.aborted msgUnwrapNone, [])
  else if inst.hasGetLen = false then (Res.aborted msgUnwrapNone, [])
  else
    match inst.getLen st with
    | Except.error t => (Res.aborted t, [Event.callGetLen])
    | Except.ok (len, st1) =>
      match inst.getPtr st1 with
      | Except.error t => (Res.aborted t, [Event.callGetLen, Event.callGetPtr])
      | Except.ok (off, st2) =>
        if inst.hasMemory = false then
          (Res.aborted msgUnwrapNone, [Event.callGetLen, Event.callGetPtr])
        else
          match decodeResult (rawRead st2.mem off (usize_of_i32 len)) with
          | none =>
            (Res.aborted msgDecode,
             [Event.callGetLen, Event.callGetPtr,
              Event.memRead off (usize_of_i32 len), Event.decode])
          | some r =>
            (Res.ok r,
             [Event.callGetLen, Event.callGetPtr,
              Event.memRead off (usize_of_i32 len), Event.decode])

/-- Embedding of execute_wasm (wasmtime.rs lines 12 to 38), threading
the filesystem world and accumulating the event trace.  Steps in
source order: serialize the input (serde_json::to_vec, infallible on a
Value), build the WASI context, add WASI to the linker, compile the
module, instantiate it, look up the default export, run
pass_string_arg, call the entry point (a trap propagates as an error,
line 35), and read the outcome back with get_return_value (wrapped in
Ok, line 37).  A fresh engine, store and linker are created per
invocation and carry no state of their own; their observable behaviour
is the oracle. -/
def execute_wasm (parameters : Json) (wasm_action : WasmAction)
    (oracle : EngineOracle) (fs : FsWorld) :
    Res (Except Json Json) × FsWorld × List Event :=
  let json_bytes := printJson parameters
  match build_wasi_context wasm_action.capabilities json_bytes.length fs with
  | (Res.err e, fs1, tr) => (Res.err e, fs1, tr)
  | (Res.aborted m, fs1, tr) => (Res.aborted m, fs1, tr)
  | (Res.ok ctx, fs1, tr) =>
    match oracle.linkWasi ctx with
    | Except.error e => (Res.err e, fs1, tr)
    | Except.ok _ =>
      match oracle.compile wasm_action.code with
      | Except.error e => (Res.err e, fs1, tr ++ [Event.compile])
      | Except.ok _ =>
        match oracle.instantiate wasm_action.code ctx with
        | Except.error e => (Res.err e, fs1, tr ++ [Event.compile, Event.instantiate])
        | Except.ok inst =>
          if inst.hasDefault = false then
            (Res.err errDefault, fs1,
             tr ++ [Event.compile, Event.instantiate, Event.getDefault])
          else
            match pass_string_arg inst inst.init json_bytes with
            | (Res.err e, tr2) =>
              (Res.err e, fs1,
               tr ++ [Event.compile, Event.instantiate, Event.getDefault] ++ tr2)
            | (Res.aborted m, tr2) =>
              (Res.aborted m, fs1,
               tr ++ [Event.compile, Event.instantiate, Event.getDefault] ++ tr2)
            | (Res.ok st1, tr2) =>
              match inst.main st1 with
              | Except.error t =>
                (Res.err t, fs1,
                 tr ++ [Event.compile, Event.instantiate, Event.getDefault] ++ tr2
                    ++ [Event.callMain])
              | Except.ok st2 =>
                match get_return_value inst st2 with
                | (Res.err e, tr3) =>
                  (Res.err e, fs1,
                   tr ++ [Event.compile, Event.instantiate, Event.getDefault] ++ tr2
                      ++ [Event.callMain] ++ tr3)
                | (Res.aborted m, tr3) =>
                  (Res.aborted m, fs1,
                   tr ++ [Event.compile, Event.instantiate, Event.getDefault] ++ tr2
                      ++ [Event.callMain] ++ tr3)
                | (Res.ok r, tr3) =>
                  (Res.ok r, fs1,
                   tr ++ [Event.compile, Event.instantiate, Event.getDefault] ++ tr2
                      ++ [Event.callMain] ++ tr3)

/-- Test of a memRead event. -/
def Event.isMemRead : Event → Bool
  | Event.memRead _ _ => true
  | _ => false

/-- Test of the decode event. -/
def Event.isDecode : Event → Bool
  | Event.decode => true
  | _ => false

/-- Property of a trace that contains no result read-back and no
decode step. -/
def noOutputCopy (tr : List Event) : Bool :=
  tr.all (fun ev => ! ev.isMemRead && ! ev.isDecode)

/-- Filesystem world with no failures, used by concrete runs. -/
def fs0 : FsWorld :=
  { dirs := [], createFails := fun _ => false, openFails := fun _ => false }

/-- Serialized success outcome with payload null, as a well-behaved
guest would write it. -/
def okBytes : List Char := encodeResult (Except.ok Json.null)

/-- A well-behaved guest: it exports everything, ignores its input,
and on the entry-point call serializes the success outcome with
payload null into its buffer at offset zero. -/
def goodImpl : GuestImpl :=
  { hasAllocate := true, hasGetPtr := true, hasGetLen := true, hasMemory := true,
    hasDefault := true,
    allocate := fun _ st => Except.ok st,
    getPtr := fun st => Except.ok (0, st),
    getLen := fun st => Except.ok (Int.ofNat st.reg, st),
    main := fun _ => Except.ok { mem := okBytes, reg := okBytes.length },
    init := { mem := List.replicate 16 (Char.ofNat 0), reg := 0 } }

/-- Engine oracle whose compilation and instantiation always succeed,
producing the well-behaved guest. -/
def goodOracle : EngineOracle :=
  { linkWasi := fun _ => Except.ok (),
    compile := fun _ => Except.ok (),
    instantiate := fun _ _ => Except.ok goodImpl }

/-- Empty capability set. -/
def emptyCaps : ActionCapabilities := { dir := none }

/-- Action with no declared capability. -/
def goodAction : WasmAction := { code := [], capabilities := emptyCaps }

theorem pass_string_arg_ok (inst : GuestImpl) (st : GuestState) (bytes : List Char)
    (st' : GuestState) (tr : List Event)
    (h : pass_string_arg inst st bytes = (Res.ok st', tr)) :
    ∃ off, tr = [Event.callAllocate (i32_of_usize bytes.length), Event.callGetPtr,
      Event.memWrite off bytes.length] := by
  unfold pass_string_arg at h
  repeat' split at h
  all_goals simp_all
  exact ⟨_, h.2.symm⟩

theorem get_return_value_ok (inst : GuestImpl) (st : GuestState)
    (r : Except Json Json) (tr : List Event)
    (h : get_return_value inst st = (Res.ok r, tr)) :
    ∃ off len, tr = [Event.callGetLen, Event.callGetPtr, Event.memRead off len, Event.decode] := by
  unfold get_return_value at h
  repeat' split at h
  all_goals simp_all
  exact ⟨_, _, h.2.symm⟩

theorem get_return_value_no_err (inst : GuestImpl) (st : GuestState) (e : String)
    (tr : List Event) : get_return_value inst st ≠ (Res.err e, tr) := by
  intro h
  unfold get_return_value at h
  repeat' split at h
  all_goals simp_all

theorem build_wasi_context_ok (caps : ActionCapabilities) (n : Nat) (fs : FsWorld)
    (ctx : WasiCtx) (fs' : FsWorld) (tr : List Event)
    (h : build_wasi_context caps n fs = (Res.ok ctx, fs', tr)) :
    (caps.dir = none ∧ tr = [] ∧ fs' = fs) ∨
      (∃ d, caps.dir = some d ∧ tr = [Event.mkdir d, Event.openDir d]) := by
  unfold build_wasi_context at h
  split at h
  · next hdir =>
    simp only [Prod.mk.injEq, Res.ok.injEq] at h
    exact Or.inl ⟨hdir, h.2.2.symm, h.2.1.symm⟩
  · next dir hdir =>
    split at h
    · simp at h
    · split at h
      · simp at h
      · simp only [Prod.mk.injEq, Res.ok.injEq] at h
        exact Or.inr ⟨dir, hdir, h.2.2.symm⟩

theorem build_wasi_context_noOutputCopy (caps : ActionCapabilities) (n : Nat) (fs : FsWorld) :
    noOutputCopy (build_wasi_context caps n fs).2.2 = true := by
  unfold build_wasi_context
  repeat' split
  all_goals rfl

theorem pass_string_arg_noOutputCopy (inst : GuestImpl) (st : GuestState) (bytes : List Char) :
    noOutputCopy (pass_string_arg inst st bytes).2 = true := by
  unfold pass_string_arg
  repeat' split
  all_goals rfl

theorem pass_string_arg_no_callMain (inst : GuestImpl) (st : GuestState) (bytes : List Char) :
    Event.callMain ∉ (pass_string_arg inst st bytes).2 := by
  unfold pass_string_arg
  repeat' split
  all_goals simp

/-! ### Part 4: claim theorems -/

/-- C9: encoding a tagged outcome value of either variant with the
Outcome Codec serialization and then decoding the resulting bytes
yields the original tagged value unchanged. -/
theorem claim_c9_outcome_codec_round_trip (r : Except Json Json) :
    decodeResult (encodeResult r) = some r :=
  decodeResult_encodeResult r

/-- C8 counterexample: the discriminator embedded in the bytes is not
the word success or failure.  Bytes carrying a success tag do not
decode to the Success branch at all, while the bytes the decoder does
accept as the Success branch carry the serde tag Ok. -/
theorem claim_c8_counterexample :
    decodeResult (printJson (Json.obj (JsonFields.cons
        ['s', 'u', 'c', 'c', 'e', 's', 's'] Json.null JsonFields.nil))) = none
    ∧ decodeResult (printJson (Json.obj (JsonFields.cons okKey Json.null JsonFields.nil)))
        = some (Except.ok Json.null) :=
  ⟨rfl, rfl⟩

/-- C8 amended: the Success-versus-Failure branch of a decoded outcome
is determined solely by the explicit serde discriminator tag, spelled
Ok and Err, embedded in the bytes the guest wrote: for every payload
value of any shape, bytes tagged Ok decode to the Success branch and
bytes tagged Err decode to the Failure branch, so the decoder never
inspects the payload shape to choose the branch. -/
theorem claim_c8_tag_decides_branch (v : Json) :
    decodeResult (printJson (Json.obj (JsonFields.cons okKey v JsonFields.nil)))
        = some (Except.ok v)
    ∧ decodeResult (printJson (Json.obj (JsonFields.cons errKey v JsonFields.nil)))
        = some (Except.error v) := by
  constructor
  · rw [decodeResult, jsonParse_print]
    rfl
  · rw [decodeResult, jsonParse_print]
    rfl

/-- Guest instance whose reported buffer offset lies far outside its
four-byte memory. -/
def oobImpl : GuestImpl :=
  { goodImpl with
    getPtr := fun st => Except.ok (100, st),
    init := { mem := ['a', 'b', 'c', 'd'], reg := 0 } }

/-- C3 counterexample: with the guest reporting buffer offset 100 for
a memory only four bytes long, the host-side copy of a five-byte input
is performed (the memWrite event occurs) and pass_string_arg succeeds;
the violation of offset plus length against the memory size produces
no OutOfBounds error. -/
theorem claim_c3_counterexample :
    pass_string_arg oobImpl oobImpl.init ['h', 'e', 'l', 'l', 'o']
      = (Res.ok { mem := ['a', 'b', 'c', 'd'], reg := 0 },
         [Event.callAllocate 5, Event.callGetPtr, Event.memWrite 100 5])
    ∧ oobImpl.init.mem.length < 100 + 5 :=
  ⟨rfl, by decide⟩

/-- C3 amended: host-side copies into and out of guest linear memory
perform no validation of offset plus length against the memory size,
and no OutOfBounds error path exists: whenever the involved exports
are present and the guest calls succeed, pass_string_arg performs the
copy and succeeds and get_return_value performs the read, for every
offset and length the guest reports. -/
theorem claim_c3_unchecked_copies (inst : GuestImpl)
    (st st1 st2 st3 st4 st5 : GuestState) (bytes : List Char) (off len off2 : Int)
    (hA : inst.hasAllocate = true) (hP : inst.hasGetPtr = true) (hM : inst.hasMemory = true)
    (hL : inst.hasGetLen = true)
    (hal : inst.allocate (i32_of_usize bytes.length) st = Except.ok st1)
    (hptr : inst.getPtr st1 = Except.ok (off, st2))
    (hlen : inst.getLen st3 = Except.ok (len, st4))
    (hptr2 : inst.getPtr st4 = Except.ok (off2, st5)) :
    pass_string_arg inst st bytes
      = (Res.ok { st2 with mem := rawWrite st2.mem off bytes },
         [Event.callAllocate (i32_of_usize bytes.length), Event.callGetPtr,
          Event.memWrite off bytes.length])
    ∧ Event.memRead off2 (usize_of_i32 len) ∈ (get_return_value inst st3).2 := by
  constructor
  · unfold pass_string_arg
    simp [hA, hal, hP, hptr, hM]
  · unfold get_return_value
    simp only [hP, hL, hlen, hptr2, hM]
    norm_num
    split <;> simp

/-- Filesystem world on which every directory creation fails. -/
def fsCreateFail : FsWorld :=
  { dirs := [], createFails := fun _ => true, openFails := fun _ => false }

/-- C5 counterexample: when creation of the declared directory fails,
the caller of execute does not receive an error result; the invocation
aborts through the panicking unwrap in build_wasi_context. -/
theorem claim_c5_counterexample :
    (execute_wasm Json.null { code := [], capabilities := { dir := some "/cap" } }
        goodOracle fsCreateFail).1
      = Res.aborted "could not create directory" := rfl

/-- C5 amended: for a declared directory capability, a failure to open
the directory is propagated to the caller of execute as a fatal error
result for that invocation (not retried); a failure to create the
directory, however, is not propagated: the code unwraps the creation
result and the invocation aborts in a panic. -/
theorem claim_c5_dir_failures (params : Json) (action : WasmAction) (oracle : EngineOracle)
    (fs : FsWorld) (d : String) (hd : action.capabilities.dir = some d) :
    ((fs.dirs.contains d = true ∨ fs.createFails d = false) → fs.openFails d = true →
      ∃ m, (execute_wasm params action oracle fs).1 = Res.err m)
    ∧ (fs.dirs.contains d = false → fs.createFails d = true →
      ∃ m, (execute_wasm params action oracle fs).1 = Res.aborted m) := by
  constructor
  · intro hcr hop
    refine ⟨"could not open directory", ?_⟩
    have hb : ∃ fs1, build_wasi_context action.capabilities (printJson params).length fs
        = (Res.err "could not open directory", fs1, [Event.mkdir d, Event.openDir d]) := by
      by_cases hc : fs.dirs.contains d = true
      · have hmem : d ∈ fs.dirs := by simpa using hc
        refine ⟨fs, ?_⟩
        unfold build_wasi_context createDirRecursive fileOpen
        rw [hd]
        simp [hmem, hop]
      · have hcf : fs.createFails d = false := by
          rcases hcr with h | h
          · exact absurd h hc
          · exact h
        have hmem : ¬d ∈ fs.dirs := by simpa using hc
        refine ⟨{ fs with dirs := d :: fs.dirs }, ?_⟩
        unfold build_wasi_context createDirRecursive fileOpen
        rw [hd]
        simp [hmem, hcf, hop]
    obtain ⟨fs1, hb⟩ := hb
    simp only [execute_wasm, hb]
  · intro hc hcr
    refine ⟨"could not create directory", ?_⟩
    have hb : build_wasi_context action.capabilities (printJson params).length fs
        = (Res.aborted "could not create directory", fs, [Event.mkdir d]) := by
      have hmem : ¬d ∈ fs.dirs := by simpa using hc
      unfold build_wasi_context createDirRecursive
      rw [hd]
      simp [hmem, hcr]
    simp only [execute_wasm, hb]

/-- WASI context as built with no directory capability. -/
def baseCtx (arg_len : Nat) : WasiCtx :=
  { inheritStdout := true, inheritStderr := true, args := [toString arg_len], preopens := [] }

/-- WASI context as built with one preopened directory. -/
def capCtx (arg_len : Nat) (d : String) : WasiCtx :=
  { inheritStdout := true, inheritStderr := true, args := [toString arg_len], preopens := [d] }

/-- C6: with no directory capability declared, the built environment
grants the guest no preopened directory at all; with a directory
capability, the directory is created recursively if absent (the build
succeeding whether or not it already existed), and exactly that one
directory is granted as the preopened capability. -/
theorem claim_c6_capability_builder (caps : ActionCapabilities) (arg_len : Nat) (fs : FsWorld) :
    (caps.dir = none →
      ∃ ctx, build_wasi_context caps arg_len fs = (Res.ok ctx, fs, []) ∧ ctx.preopens = [])
    ∧ ∀ d, caps.dir = some d → (fs.dirs.contains d = true ∨ fs.createFails d = false) →
        fs.openFails d = false →
        ∃ ctx fs', build_wasi_context caps arg_len fs
            = (Res.ok ctx, fs', [Event.mkdir d, Event.openDir d])
          ∧ ctx.preopens = [d] ∧ fs'.dirs.contains d = true := by
  constructor
  · intro hnone
    refine ⟨baseCtx arg_len, ?_, rfl⟩
    unfold build_wasi_context baseCtx
    rw [hnone]
  · intro d hd hcr hop
    by_cases hc : fs.dirs.contains d = true
    · have hmem : d ∈ fs.dirs := by simpa using hc
      refine ⟨capCtx arg_len d, fs, ?_, rfl, hc⟩
      unfold build_wasi_context createDirRecursive fileOpen capCtx
      rw [hd]
      simp [hmem, hop]
    · rcases hcr with h | h
      · exact absurd h hc
      · have hmem : ¬d ∈ fs.dirs := by simpa using hc
        refine ⟨capCtx arg_len d, { fs with dirs := d :: fs.dirs }, ?_, rfl, by simp⟩
        unfold build_wasi_context createDirRecursive fileOpen capCtx
        rw [hd]
        simp [hmem, h, hop]

/-- Guest identical to the well-behaved one except that it does not
export get_wasm_memory_buffer_len. -/
def lenlessImpl : GuestImpl := { goodImpl with hasGetLen := false }

/-- Engine oracle producing the guest that lacks the get-buffer-len
export. -/
def lenlessOracle : EngineOracle :=
  { goodOracle with instantiate := fun _ _ => Except.ok lenlessImpl }

/-- C1: evaluation at the failing input.  For a guest module exporting
allocate-space, get-buffer-pointer, the entry point and the named
memory, but not get-buffer-len, execute does not return a named host
error before any copy: the input is copied into guest memory (the
memWrite event occurs in the trace), the entry point runs, and the
invocation then aborts through the unchecked unwrap in
get_return_value, contradicting the comment there that all such
missing-export errors were handled earlier. -/
theorem claim_c1_missing_len_aborts_after_copy :
    execute_wasm Json.null { code := [], capabilities := emptyCaps } lenlessOracle fs0
      = (Res.aborted msgUnwrapNone, fs0,
         [Event.compile, Event.instantiate, Event.getDefault,
          Event.callAllocate 4, Event.callGetPtr, Event.memWrite 0 4, Event.callMain]) := rfl

/-- Guest identical to the well-behaved one except that its entry
point leaves bytes in memory that are not a serialized outcome. -/
def garbageImpl : GuestImpl :=
  { goodImpl with
    main := fun _ => Except.ok { mem := ['h', 'e', 'l', 'l', 'o'], reg := 5 } }

/-- Engine oracle producing the guest that writes malformed outcome
bytes. -/
def garbageOracle : EngineOracle :=
  { goodOracle with instantiate := fun _ _ => Except.ok garbageImpl }

/-- C2 counterexample: when the guest leaves bytes that are not a
well-formed serialized tagged outcome, execute does not return a
host-tier decode error to the caller; the invocation aborts through
the panicking unwrap on the serde_json decode at line 118. -/
theorem claim_c2_counterexample :
    (execute_wasm Json.null { code := [], capabilities := emptyCaps } garbageOracle fs0).1
      = Res.aborted msgDecode := rfl

/-- C2 amended: for every byte sequence read back from guest memory
that is not a well-formed serialized tagged outcome, get_return_value
returns neither a guest-level Failure outcome nor any decoded outcome
nor a host error value: the decode failure aborts the invocation
through a panicking unwrap. -/
theorem claim_c2_malformed_bytes_abort (inst : GuestImpl)
    (st st1 st2 : GuestState) (len off : Int)
    (hP : inst.hasGetPtr = true) (hL : inst.hasGetLen = true) (hM : inst.hasMemory = true)
    (hlen : inst.getLen st = Except.ok (len, st1))
    (hptr : inst.getPtr st1 = Except.ok (off, st2))
    (hbad : decodeResult (rawRead st2.mem off (usize_of_i32 len)) = none) :
    get_return_value inst st
      = (Res.aborted msgDecode,
         [Event.callGetLen, Event.callGetPtr,
          Event.memRead off (usize_of_i32 len), Event.decode]) := by
  unfold get_return_value
  simp [hP, hL, hlen, hptr, hM, hbad]

/-- Test of the callMain event. -/
def Event.isCallMain : Event → Bool
  | Event.callMain => true
  | _ => false

/-- Property of a trace that contains no entry-point call. -/
def noCallMain (tr : List Event) : Bool :=
  tr.all (fun ev => ! ev.isCallMain)

theorem noOutputCopy_append (a b : List Event) :
    noOutputCopy (a ++ b) = (noOutputCopy a && noOutputCopy b) := by
  simp [noOutputCopy, List.all_append]

theorem noCallMain_append (a b : List Event) :
    noCallMain (a ++ b) = (noCallMain a && noCallMain b) := by
  simp [noCallMain, List.all_append]

theorem noCallMain_not_mem {tr : List Event} (h : noCallMain tr = true) :
    Event.callMain ∉ tr := by
  intro hm
  have hx := List.all_eq_true.mp h _ hm
  simp [Event.isCallMain] at hx

theorem build_wasi_context_noCallMain (caps : ActionCapabilities) (n : Nat) (fs : FsWorld) :
    noCallMain (build_wasi_context caps n fs).2.2 = true := by
  unfold build_wasi_context
  repeat' split
  all_goals rfl

theorem pass_string_arg_noCallMain (inst : GuestImpl) (st : GuestState) (bytes : List Char) :
    noCallMain (pass_string_arg inst st bytes).2 = true := by
  unfold pass_string_arg
  repeat' split
  all_goals rfl

theorem get_return_value_fst_ne_err (inst : GuestImpl) (st : GuestState) (e : String) :
    (get_return_value inst st).1 ≠ Res.err e := by
  intro h
  have hx : get_return_value inst st = (Res.err e, (get_return_value inst st).2) := by
    rw [← h]
  exact get_return_value_no_err inst st e _ hx

theorem execute_wasm_cases (params : Json) (action : WasmAction)
    (oracle : EngineOracle) (fs : FsWorld) (rb : Res WasiCtx) (fs1 : FsWorld) (bt : List Event)
    (hb : build_wasi_context action.capabilities (printJson params).length fs = (rb, fs1, bt)) :
    (execute_wasm params action oracle fs).2.1 = fs1
    ∧ (∃ suffix, (execute_wasm params action oracle fs).2.2 = bt ++ suffix)
    ∧ ((∃ e, rb = Res.err e ∧ (execute_wasm params action oracle fs).1 = Res.err e
          ∧ (execute_wasm params action oracle fs).2.2 = bt)
      ∨ (∃ m, rb = Res.aborted m ∧ (execute_wasm params action oracle fs).1 = Res.aborted m
          ∧ (execute_wasm params action oracle fs).2.2 = bt)
      ∨ (∃ ctx, rb = Res.ok ctx
          ∧ ((∃ mid, (execute_wasm params action oracle fs).2.2 = bt ++ mid
                ∧ noOutputCopy mid = true ∧ noCallMain mid = true
                ∧ ((∃ e, (execute_wasm params action oracle fs).1 = Res.err e)
                  ∨ (∃ m, (execute_wasm params action oracle fs).1 = Res.aborted m)))
            ∨ (∃ inst st1 tr2, oracle.instantiate action.code ctx = Except.ok inst
                ∧ pass_string_arg inst inst.init (printJson params) = (Res.ok st1, tr2)
                ∧ ((∃ t, inst.main st1 = Except.error t
                      ∧ (execute_wasm params action oracle fs).1 = Res.err t
                      ∧ (execute_wasm params action oracle fs).2.2
                        = bt ++ [Event.compile, Event.instantiate, Event.getDefault]
                            ++ tr2 ++ [Event.callMain])
                  ∨ (∃ st2, inst.main st1 = Except.ok st2
                      ∧ (execute_wasm params action oracle fs).1 = (get_return_value inst st2).1
                      ∧ (execute_wasm params action oracle fs).2.2
                        = bt ++ [Event.compile, Event.instantiate, Event.getDefault]
                            ++ tr2 ++ [Event.callMain]
                            ++ (get_return_value inst st2).2)))))) := by
  cases rb with
  | err e =>
    have hx : execute_wasm params action oracle fs = (Res.err e, fs1, bt) := by
      simp [execute_wasm, hb]
    rw [hx]
    exact ⟨rfl, ⟨[], by simp⟩, Or.inl ⟨e, rfl, rfl, rfl⟩⟩
  | aborted m =>
    have hx : execute_wasm params action oracle fs = (Res.aborted m, fs1, bt) := by
      simp [execute_wasm, hb]
    rw [hx]
    exact ⟨rfl, ⟨[], by simp⟩, Or.inr (Or.inl ⟨m, rfl, rfl, rfl⟩)⟩
  | ok ctx =>
    rcases hl : oracle.linkWasi ctx with el | u
    · have hx : execute_wasm params action oracle fs = (Res.err el, fs1, bt) := by
        simp [execute_wasm, hb, hl]
      rw [hx]
      exact ⟨rfl, ⟨[], by simp⟩,
        Or.inr (Or.inr ⟨ctx, rfl, Or.inl ⟨[], by simp, rfl, rfl, Or.inl ⟨el, rfl⟩⟩⟩)⟩
    · rcases hcm : oracle.compile action.code with ec | u2
      · have hx : execute_wasm params action oracle fs
            = (Res.err ec, fs1, bt ++ [Event.compile]) := by
          simp [execute_wasm, hb, hl, hcm]
        rw [hx]
        exact ⟨rfl, ⟨[Event.compile], rfl⟩,
          Or.inr (Or.inr ⟨ctx, rfl,
            Or.inl ⟨[Event.compile], rfl, rfl, rfl, Or.inl ⟨ec, rfl⟩⟩⟩)⟩
      · rcases hi : oracle.instantiate action.code ctx with ei | inst
        · have hx : execute_wasm params action oracle fs
              = (Res.err ei, fs1, bt ++ [Event.compile, Event.instantiate]) := by
            simp [execute_wasm, hb, hl, hcm, hi]
          rw [hx]
          exact ⟨rfl, ⟨[Event.compile, Event.instantiate], rfl⟩,
            Or.inr (Or.inr ⟨ctx, rfl,
              Or.inl ⟨[Event.compile, Event.instantiate], rfl, rfl, rfl,
                Or.inl ⟨ei, rfl⟩⟩⟩)⟩
        · cases hdflt : inst.hasDefault with
          | false =>
            have hx : execute_wasm params action oracle fs
                = (Res.err errDefault, fs1,
                   bt ++ [Event.compile, Event.instantiate, Event.getDefault]) := by
              simp [execute_wasm, hb, hl, hcm, hi, hdflt]
            rw [hx]
            exact ⟨rfl, ⟨[Event.compile, Event.instantiate, Event.getDefault], rfl⟩,
              Or.inr (Or.inr ⟨ctx, rfl,
                Or.inl ⟨[Event.compile, Event.instantiate, Event.getDefault], rfl, rfl, rfl,
                  Or.inl ⟨errDefault, rfl⟩⟩⟩)⟩
          | true =>
            rcases hp : pass_string_arg inst inst.init (printJson params) with ⟨pr, pt⟩
            have hpt : noOutputCopy pt = true := by
              have h0 := pass_string_arg_noOutputCopy inst inst.init (printJson params)
              rw [hp] at h0
              exact h0
            have hptm : noCallMain pt = true := by
              have h0 := pass_string_arg_noCallMain inst inst.init (printJson params)
              rw [hp] at h0
              exact h0
            cases pr with
            | err ep =>
              have hx : execute_wasm params action oracle fs
                  = (Res.err ep, fs1,
                     bt ++ [Event.compile, Event.instantiate, Event.getDefault] ++ pt) := by
                simp [execute_wasm, hb, hl, hcm, hi, hdflt, hp]
              rw [hx]
              refine ⟨rfl, ⟨[Event.compile, Event.instantiate, Event.getDefault] ++ pt,
                  by simp⟩,
                Or.inr (Or.inr ⟨ctx, rfl,
                  Or.inl ⟨[Event.compile, Event.instantiate, Event.getDefault] ++ pt,
                    by simp, ?_, ?_, Or.inl ⟨ep, rfl⟩⟩⟩)⟩
              · rw [noOutputCopy_append, hpt]
                rfl
              · rw [noCallMain_append, hptm]
                rfl
            | aborted mp =>
              have hx : execute_wasm params action oracle fs
                  = (Res.aborted mp, fs1,
                     bt ++ [Event.compile, Event.instantiate, Event.getDefault] ++ pt) := by
                simp [execute_wasm, hb, hl, hcm, hi, hdflt, hp]
              rw [hx]
              refine ⟨rfl, ⟨[Event.compile, Event.instantiate, Event.getDefault] ++ pt,
                  by simp⟩,
                Or.inr (Or.inr ⟨ctx, rfl,
                  Or.inl ⟨[Event.compile, Event.instantiate, Event.getDefault] ++ pt,
                    by simp, ?_, ?_, Or.inr ⟨mp, rfl⟩⟩⟩)⟩
              · rw [noOutputCopy_append, hpt]
                rfl
              · rw [noCallMain_append, hptm]
                rfl
            | ok st1 =>
              rcases hm : inst.main st1 with t | st2
              · have hx : execute_wasm params action oracle fs
                    = (Res.err t, fs1,
                       bt ++ [Event.compile, Event.instantiate, Event.getDefault] ++ pt
                          ++ [Event.callMain]) := by
                  simp [execute_wasm, hb, hl, hcm, hi, hdflt, hp, hm]
                rw [hx]
                exact ⟨rfl,
                  ⟨[Event.compile, Event.instantiate, Event.getDefault] ++ pt
                      ++ [Event.callMain], by simp⟩,
                  Or.inr (Or.inr ⟨ctx, rfl,
                    Or.inr ⟨inst, st1, pt, hi, hp,
                      Or.inl ⟨t, hm, rfl, rfl⟩⟩⟩)⟩
              · rcases hg : get_return_value inst st2 with ⟨gr, gt⟩
                cases gr with
                | ok rv =>
                  have hx : execute_wasm params action oracle fs
                      = (Res.ok rv, fs1,
                         bt ++ [Event.compile, Event.instantiate, Event.getDefault] ++ pt
                            ++ [Event.callMain] ++ gt) := by
                    simp [execute_wasm, hb, hl, hcm, hi, hdflt, hp, hm, hg]
                  rw [hx]
                  exact ⟨rfl,
                    ⟨[Event.compile, Event.instantiate, Event.getDefault] ++ pt
                        ++ [Event.callMain] ++ gt, by simp⟩,
                    Or.inr (Or.inr ⟨ctx, rfl,
                      Or.inr ⟨inst, st1, pt, hi, hp,
                        Or.inr ⟨st2, hm, by rw [hg], by rw [hg]⟩⟩⟩)⟩
                | err ge =>
                  have hx : execute_wasm params action oracle fs
                      = (Res.err ge, fs1,
                         bt ++ [Event.compile, Event.instantiate, Event.getDefault] ++ pt
                            ++ [Event.callMain] ++ gt) := by
                    simp [execute_wasm, hb, hl, hcm, hi, hdflt, hp, hm, hg]
                  rw [hx]
                  exact ⟨rfl,
                    ⟨[Event.compile, Event.instantiate, Event.getDefault] ++ pt
                        ++ [Event.callMain] ++ gt, by simp⟩,
                    Or.inr (Or.inr ⟨ctx, rfl,
                      Or.inr ⟨inst, st1, pt, hi, hp,
                        Or.inr ⟨st2, hm, by rw [hg], by rw [hg]⟩⟩⟩)⟩
                | aborted gm =>
                  have hx : execute_wasm params action oracle fs
                      = (Res.aborted gm, fs1,
                         bt ++ [Event.compile, Event.instantiate, Event.getDefault] ++ pt
                            ++ [Event.callMain] ++ gt) := by
                    simp [execute_wasm, hb, hl, hcm, hi, hdflt, hp, hm, hg]
                  rw [hx]
                  exact ⟨rfl,
                    ⟨[Event.compile, Event.instantiate, Event.getDefault] ++ pt
                        ++ [Event.callMain] ++ gt, by simp⟩,
                    Or.inr (Or.inr ⟨ctx, rfl,
                      Or.inr ⟨inst, st1, pt, hi, hp,
                        Or.inr ⟨st2, hm, by rw [hg], by rw [hg]⟩⟩⟩)⟩

/-- C4: for every invocation in which the guest entry point traps
(modelled: every guest the oracle instantiates has an entry point that
returns a trap), execute returns a host-level error, never a decoded
outcome; and whenever execute returns a host-level error, the result
read-back and decode steps were never performed, so no partial outcome
accompanies the error. -/
theorem claim_c4_trap_is_host_error (params : Json) (action : WasmAction)
    (oracle : EngineOracle) (fs : FsWorld) :
    ((∀ code ctx inst, oracle.instantiate code ctx = Except.ok inst →
        ∀ s, ∃ t, inst.main s = Except.error t) →
      Event.callMain ∈ (execute_wasm params action oracle fs).2.2 →
      ∃ e, (execute_wasm params action oracle fs).1 = Res.err e)
    ∧ (∀ e, (execute_wasm params action oracle fs).1 = Res.err e →
        noOutputCopy (execute_wasm params action oracle fs).2.2 = true) := by
  obtain ⟨-, -, hcases⟩ := execute_wasm_cases params action oracle fs
    (build_wasi_context action.capabilities (printJson params).length fs).1
    (build_wasi_context action.capabilities (printJson params).length fs).2.1
    (build_wasi_context action.capabilities (printJson params).length fs).2.2 rfl
  have hbno := build_wasi_context_noOutputCopy action.capabilities (printJson params).length fs
  have hbnm := build_wasi_context_noCallMain action.capabilities (printJson params).length fs
  constructor
  · intro hmain hmem
    rcases hcases with ⟨e, -, h1, -⟩ | ⟨m, -, -, h3⟩ | ⟨ctx, -, hinner⟩
    · exact ⟨e, h1⟩
    · rw [h3] at hmem
      exact absurd hmem (noCallMain_not_mem hbnm)
    · rcases hinner with ⟨mid, htr, -, hnc, hres⟩ | ⟨inst, st1, tr2, hi, hp, hrest⟩
      · rcases hres with ⟨e, h1⟩ | ⟨m, h1⟩
        · exact ⟨e, h1⟩
        · rw [htr] at hmem
          rcases List.mem_append.mp hmem with h | h
          · exact absurd h (noCallMain_not_mem hbnm)
          · exact absurd h (noCallMain_not_mem hnc)
      · rcases hrest with ⟨t, -, h1, -⟩ | ⟨st2, hm, -, -⟩
        · exact ⟨t, h1⟩
        · obtain ⟨t, ht⟩ := hmain action.code ctx inst hi st1
          rw [hm] at ht
          exact absurd ht (by simp)
  · intro e he
    rcases hcases with ⟨e1, -, h1, h3⟩ | ⟨m, -, h1, -⟩ | ⟨ctx, -, hinner⟩
    · rw [h3]
      exact hbno
    · rw [h1] at he
      exact absurd he (by simp)
    · rcases hinner with ⟨mid, htr, hno, -, -⟩ | ⟨inst, st1, tr2, hi, hp, hrest⟩
      · rw [htr, noOutputCopy_append, hbno, hno]
        rfl
      · have hpt : noOutputCopy tr2 = true := by
          have h0 := pass_string_arg_noOutputCopy inst inst.init (printJson params)
          rw [hp] at h0
          exact h0
        rcases hrest with ⟨t, -, -, htr⟩ | ⟨st2, -, h1, -⟩
        · rw [htr, noOutputCopy_append, noOutputCopy_append, noOutputCopy_append, hbno, hpt]
          rfl
        · rw [h1] at he
          exact absurd he (get_return_value_fst_ne_err inst st2 e)

/-- Guest identical to the well-behaved one except that its entry
point traps. -/
def trapImpl : GuestImpl := { goodImpl with main := fun _ => Except.error "trap" }

/-- Engine oracle producing the trapping guest. -/
def trapOracle : EngineOracle :=
  { goodOracle with instantiate := fun _ _ => Except.ok trapImpl }

theorem claim_c4_witness :
    (∃ e, (execute_wasm Json.null goodAction trapOracle fs0).1 = Res.err e)
    ∧ noOutputCopy (execute_wasm Json.null goodAction trapOracle fs0).2.2 = true := by
  have h := claim_c4_trap_is_host_error Json.null goodAction trapOracle fs0
  have hmem : Event.callMain ∈ (execute_wasm Json.null goodAction trapOracle fs0).2.2 := by
    decide
  have hmain : ∀ code ctx inst, trapOracle.instantiate code ctx = Except.ok inst →
      ∀ s, ∃ t, inst.main s = Except.error t := by
    intro code ctx inst hi s
    simp only [trapOracle] at hi
    injection hi with h2
    refine ⟨"trap", ?_⟩
    rw [← h2]
    rfl
  obtain ⟨e, he⟩ := h.1 hmain hmem
  exact ⟨⟨e, he⟩, h.2 e he⟩

/-- C7: for every successful invocation the marshaling handshake
follows the strict order: after the WASI setup trace (which performs
no data transfer and no entry-point call), allocate-space is called
exactly once with exactly the serialized input length, then the buffer
pointer is queried and that many bytes are copied in, only then is the
entry point invoked, and after it returns the buffer length and
pointer are queried afresh before the result bytes are copied out and
decoded. -/
theorem claim_c7_marshaling_order (params : Json) (action : WasmAction)
    (oracle : EngineOracle) (fs : FsWorld) (v : Except Json Json)
    (h : (execute_wasm params action oracle fs).1 = Res.ok v) :
    ∃ off off2 len2,
      (execute_wasm params action oracle fs).2.2
        = (build_wasi_context action.capabilities (printJson params).length fs).2.2
          ++ [Event.compile, Event.instantiate, Event.getDefault,
              Event.callAllocate (i32_of_usize (printJson params).length),
              Event.callGetPtr,
              Event.memWrite off (printJson params).length,
              Event.callMain,
              Event.callGetLen, Event.callGetPtr,
              Event.memRead off2 len2, Event.decode]
      ∧ noOutputCopy (build_wasi_context action.capabilities (printJson params).length fs).2.2
          = true
      ∧ noCallMain (build_wasi_context action.capabilities (printJson params).length fs).2.2
          = true := by
  obtain ⟨-, -, hcases⟩ := execute_wasm_cases params action oracle fs
    (build_wasi_context action.capabilities (printJson params).length fs).1
    (build_wasi_context action.capabilities (printJson params).length fs).2.1
    (build_wasi_context action.capabilities (printJson params).length fs).2.2 rfl
  rcases hcases with ⟨e, -, h1, -⟩ | ⟨m, -, h1, -⟩ | ⟨ctx, -, hinner⟩
  · rw [h1] at h
    exact absurd h (by simp)
  · rw [h1] at h
    exact absurd h (by simp)
  · rcases hinner with ⟨mid, -, -, -, hres⟩ | ⟨inst, st1, tr2, -, hp, hrest⟩
    · rcases hres with ⟨e, h1⟩ | ⟨m, h1⟩ <;> rw [h1] at h <;> exact absurd h (by simp)
    · rcases hrest with ⟨t, -, h1, -⟩ | ⟨st2, -, h1, htr⟩
      · rw [h1] at h
        exact absurd h (by simp)
      · have hgv : (get_return_value inst st2).1 = Res.ok v := by
          rw [← h1]
          exact h
        have hg : get_return_value inst st2 = (Res.ok v, (get_return_value inst st2).2) := by
          rw [← hgv]
        obtain ⟨off2, len2, hgt⟩ := get_return_value_ok inst st2 v _ hg
        obtain ⟨off, htr2⟩ := pass_string_arg_ok inst inst.init (printJson params) st1 tr2 hp
        refine ⟨off, off2, len2, ?_,
          build_wasi_context_noOutputCopy action.capabilities (printJson params).length fs,
          build_wasi_context_noCallMain action.capabilities (printJson params).length fs⟩
        rw [htr, htr2, hgt]
        simp

theorem claim_c7_witness :
    ∃ off off2 len2,
      (execute_wasm Json.null goodAction goodOracle fs0).2.2
        = (build_wasi_context goodAction.capabilities (printJson Json.null).length fs0).2.2
          ++ [Event.compile, Event.instantiate, Event.getDefault,
              Event.callAllocate (i32_of_usize (printJson Json.null).length),
              Event.callGetPtr,
              Event.memWrite off (printJson Json.null).length,
              Event.callMain,
              Event.callGetLen, Event.callGetPtr,
              Event.memRead off2 len2, Event.decode]
      ∧ noOutputCopy
          (build_wasi_context goodAction.capabilities (printJson Json.null).length fs0).2.2
          = true
      ∧ noCallMain
          (build_wasi_context goodAction.capabilities (printJson Json.null).length fs0).2.2
          = true :=
  claim_c7_marshaling_order Json.null goodAction goodOracle fs0 (Except.ok Json.null) rfl

theorem build_wasi_context_mkdir (caps : ActionCapabilities) (n : Nat) (fs : FsWorld)
    (d : String) (hd : caps.dir = some d) (hc : fs.createFails d = false) :
    (∃ rest, (build_wasi_context caps n fs).2.2 = Event.mkdir d :: rest)
    ∧ (build_wasi_context caps n fs).2.1.dirs.contains d = true := by
  unfold build_wasi_context createDirRecursive fileOpen
  rw [hd]
  by_cases hmem : d ∈ fs.dirs
  · have hcon : fs.dirs.contains d = true := by simpa using hmem
    cases hop : fs.openFails d with
    | false =>
      refine ⟨⟨[Event.openDir d], ?_⟩, ?_⟩ <;> simp [hcon, hop, hmem]
    | true =>
      refine ⟨⟨[Event.openDir d], ?_⟩, ?_⟩ <;> simp [hcon, hop, hmem]
  · have hcon : fs.dirs.contains d = false := by simpa using hmem
    cases hop : fs.openFails d with
    | false =>
      refine ⟨⟨[Event.openDir d], ?_⟩, ?_⟩ <;> simp [hcon, hc, hop, hmem]
    | true =>
      refine ⟨⟨[Event.openDir d], ?_⟩, ?_⟩ <;> simp [hcon, hc, hop, hmem]

/-- C10: with a declared directory capability whose creation can
succeed, the directory-creation side effect opens the invocation's
event trace, so it happens before the bytecode is compiled or
instantiated; and the created directory persists in the filesystem
world returned by execute no matter how the invocation ends. -/
theorem claim_c10_mkdir_precedes_and_persists (params : Json) (action : WasmAction)
    (oracle : EngineOracle) (fs : FsWorld) (d : String)
    (hd : action.capabilities.dir = some d)
    (hc : fs.createFails d = false) :
    (∃ rest, (execute_wasm params action oracle fs).2.2 = Event.mkdir d :: rest)
    ∧ (execute_wasm params action oracle fs).2.1.dirs.contains d = true := by
  obtain ⟨hfs, ⟨suf, hsuf⟩, -⟩ := execute_wasm_cases params action oracle fs
    (build_wasi_context action.capabilities (printJson params).length fs).1
    (build_wasi_context action.capabilities (printJson params).length fs).2.1
    (build_wasi_context action.capabilities (printJson params).length fs).2.2 rfl
  obtain ⟨⟨rest, hbt⟩, hcontains⟩ :=
    build_wasi_context_mkdir action.capabilities (printJson params).length fs d hd hc
  refine ⟨⟨rest ++ suf, ?_⟩, ?_⟩
  · rw [hsuf, hbt]
    simp
  · rw [hfs]
    exact hcontains

/-- Action with code [] and the directory capability cap. -/
def capAction : WasmAction := { code := [], capabilities := { dir := some "cap" } }

theorem claim_c10_witness :
    (∃ rest, (execute_wasm Json.null capAction goodOracle fs0).2.2
        = Event.mkdir "cap" :: rest)
    ∧ (execute_wasm Json.null capAction goodOracle fs0).2.1.dirs.contains "cap" = true :=
  claim_c10_mkdir_precedes_and_persists Json.null capAction goodOracle fs0 "cap" rfl rfl

/-- Guest state left by the garbage-writing guest after its entry
point ran. -/
def badState : GuestState := { mem := ['h', 'e', 'l', 'l', 'o'], reg := 5 }

theorem claim_c2_witness :
    get_return_value garbageImpl badState
      = (Res.aborted msgDecode,
         [Event.callGetLen, Event.callGetPtr,
          Event.memRead 0 (usize_of_i32 5), Event.decode]) :=
  claim_c2_malformed_bytes_abort garbageImpl badState badState badState 5 0
    rfl rfl rfl rfl rfl rfl

theorem claim_c3_witness :
    pass_string_arg oobImpl oobImpl.init ['h', 'e', 'l', 'l', 'o']
      = (Res.ok { oobImpl.init with
            mem := rawWrite oobImpl.init.mem 100 ['h', 'e', 'l', 'l', 'o'] },
         [Event.callAllocate (i32_of_usize 5), Event.callGetPtr, Event.memWrite 100 5])
    ∧ Event.memRead 100 (usize_of_i32 0) ∈ (get_return_value oobImpl oobImpl.init).2 :=
  claim_c3_unchecked_copies oobImpl oobImpl.init oobImpl.init oobImpl.init oobImpl.init
    oobImpl.init oobImpl.init ['h', 'e', 'l', 'l', 'o'] 100 0 100
    rfl rfl rfl rfl rfl rfl rfl rfl

/-- Filesystem world on which directory creation succeeds but every
open fails. -/
def fsOpenFail : FsWorld :=
  { dirs := [], createFails := fun _ => false, openFails := fun _ => true }

theorem claim_c5_witness :
    (∃ m, (execute_wasm Json.null capAction goodOracle fsOpenFail).1 = Res.err m)
    ∧ (∃ m, (execute_wasm Json.null capAction goodOracle fsCreateFail).1 = Res.aborted m) :=
  ⟨(claim_c5_dir_failures Json.null capAction goodOracle fsOpenFail "cap" rfl).1
      (Or.inr rfl) rfl,
   (claim_c5_dir_failures Json.null capAction goodOracle fsCreateFail "cap" rfl).2
      rfl rfl⟩

theorem claim_c6_witness :
    (∃ ctx, build_wasi_context emptyCaps 4 fs0 = (Res.ok ctx, fs0, []) ∧ ctx.preopens = [])
    ∧ (∃ ctx fs', build_wasi_context { dir := some "cap" } 4 fs0
        = (Res.ok ctx, fs', [Event.mkdir "cap", Event.openDir "cap"])
      ∧ ctx.preopens = ["cap"] ∧ fs'.dirs.contains "cap" = true) :=
  ⟨(claim_c6_capability_builder emptyCaps 4 fs0).1 rfl,
   (claim_c6_capability_builder { dir := some "cap" } 4 fs0).2 "cap" rfl (Or.inr rfl) rfl⟩
